import Mathlib

/-
Verification of the x402 payment-gateway core (TypeScript) against its
specification, via a shallow embedding in Lean 4.

The embedding models JavaScript strings as Lean Strings (sequences of
characters; all data handled by the verified components is ASCII), JS
bigint as Nat/Int, and JS objects with optional fields as structures
with Option fields.  Asynchronous functions are modelled as pure
functions taking their I/O outcomes (RPC receipt fetch, database
success flag) as explicit oracle arguments; the shared replay-ledger
state is passed explicitly.
-/

namespace X402

/-! ## Generic string helpers (models of the JS string operations used) -/

/-- Model of the ASCII case folding performed by String.prototype.toLowerCase
on the hex strings handled here (addresses, hashes: ASCII only). -/
def jsLowerChar (c : Char) : Char :=
  if 'A' ≤ c ∧ c ≤ 'Z' then Char.ofNat (c.toNat + 32) else c

/-- Lowercase a string character-wise (model of s.toLowerCase() on ASCII data). -/
def lowerStr (s : String) : String :=
  String.mk (s.data.map jsLowerChar)

/-- Model of s.startsWith("0x"). -/
def startsWith0x (s : String) : Bool :=
  match s.data with
  | c1 :: c2 :: _ => c1 = '0' ∧ c2 = 'x'
  | _ => false

/-- Model of s.startsWith("$"). -/
def startsWithDollar (s : String) : Bool :=
  match s.data with
  | c :: _ => c = '$'
  | [] => false

/-- Hexadecimal digit test, as in the character class [a-fA-F0-9]. -/
def isHexChar (c : Char) : Bool :=
  ('0' ≤ c ∧ c ≤ '9') ∨ ('a' ≤ c ∧ c ≤ 'f') ∨ ('A' ≤ c ∧ c ≤ 'F')

/-- Model of the recipient-address regex from the fast-rail verifier,
tested before any RPC call: 0x followed by exactly 40 hex characters. -/
def isEthAddressFormat (s : String) : Bool :=
  match s.data with
  | '0' :: 'x' :: rest => rest.length = 40 ∧ rest.all isHexChar
  | _ => false

/-! ## Decimal price arithmetic (src/lib/validation.ts, priceStringToTokenAmount)

The source:

  export function priceStringToTokenAmount(price: string, decimals: number): bigint
    const stripped = price.startsWith("$") ? price.slice(1) : price;
    const [intPart = "0", decPart = ""] = stripped.split(".");
    const padded = decPart.padEnd(decimals, "0").slice(0, decimals);
    const tokenStr = (intPart + padded).replace(/^0+/, "") || "0";
    return BigInt(tokenStr);

We model it character-wise.  JS split(".") destructured to its first two
components yields the characters before the first dot and the characters
between the first and the second dot (the default "0" for intPart never
fires because split always produces at least one component). -/

/-- Numeric value of a list of decimal digit characters (most significant first). -/
def digitsVal (l : List Char) : Nat :=
  l.foldl (fun acc c => acc * 10 + (c.toNat - '0'.toNat)) 0

/-- Model of BigInt(s) for the string shapes reachable in this code base:
the empty string is 0, an optional single leading sign followed by decimal
digits parses as an integer, and anything else throws (None).  (The JS
StringToBigInt also accepts whitespace and 0x/0o/0b prefixes; no string
built by the embedded functions has those shapes.) -/
def parseBigInt (s : String) : Option Int :=
  match s.data with
  | [] => some 0
  | c :: rest =>
      if c = '-' then
        (if rest ≠ [] ∧ rest.all Char.isDigit then some (-(digitsVal rest : Int)) else none)
      else if c = '+' then
        (if rest ≠ [] ∧ rest.all Char.isDigit then some ((digitsVal rest : Int)) else none)
      else if (c :: rest).all Char.isDigit then some ((digitsVal (c :: rest) : Int)) else none

/-- Characters of the price after the optional dollar strip
(price.startsWith("$") ? price.slice(1) : price). -/
def priceStrip (price : String) : List Char :=
  (if startsWithDollar price then price.drop 1 else price).data

/-- First component of stripped.split("."): characters before the first dot. -/
def priceIntPart (chars : List Char) : List Char :=
  chars.takeWhile (fun c => c ≠ '.')

/-- Second component of stripped.split("."): characters between the first
and second dot (empty when there is no dot). -/
def priceDecPart (chars : List Char) : List Char :=
  ((chars.dropWhile (fun c => c ≠ '.')).drop 1).takeWhile (fun c => c ≠ '.')

/-- Model of decPart.padEnd(decimals, "0").slice(0, decimals). -/
def pricePad (decPart : List Char) (decimals : Nat) : List Char :=
  (decPart ++ List.replicate (decimals - decPart.length) '0').take decimals

/-- Model of (intPart + padded).replace(/^0+/, "") || "0". -/
def priceTokenStr (intPart padded : List Char) : List Char :=
  let s := (intPart ++ padded).dropWhile (fun c => c = '0')
  if s.isEmpty then ['0'] else s

/-- Shallow embedding of priceStringToTokenAmount from src/lib/validation.ts.
None models a thrown exception from BigInt on a malformed price. -/
def priceStringToTokenAmount (price : String) (decimals : Nat) : Option Int :=
  let chars := priceStrip price
  parseBigInt (String.mk (priceTokenStr (priceIntPart chars) (pricePad (priceDecPart chars) decimals)))

/-- Value computed by priceStringToTokenAmount on a price with integer
digits intChars and fractional digits fracChars: fractional digits beyond
the requested number of decimals are truncated, the remainder is
right-padded with zeros. -/
def priceTokenValue (intChars fracChars : List Char) (d : Nat) : Nat :=
  digitsVal intChars * 10 ^ d + digitsVal (fracChars.take d) * 10 ^ (d - fracChars.length)

/-! ## On-chain receipt logs and Transfer decoding (src/verification/megaeth.ts)

The embedded revision is the PostgreSQL-backed one (replay protection via
the ledger), whose verifyTransferLogs carries constant error strings. -/

/-- An EVM receipt log entry as consumed by verifyTransferLogs: emitting
contract address, indexed topics (32-byte hex strings), and the abi-encoded
data word (the uint256 value for Transfer events), modelled as a Nat. -/
structure EthLog where
  address : String
  topics : List String
  data : Nat
deriving DecidableEq, Repr

/-- keccak256("Transfer(address,address,uint256)"): the topic0 that viem's
parseEventLogs matches for the erc20TransferAbi declared in the source. -/
def transferSig : String :=
  "0xddf252ad1be2c89b69c2b068fc378daa952ba7f163c4a11628f55a4df523b3ef"

/-- A decoded Transfer(from, to, value) event. -/
structure TransferEvent where
  fromAddr : String
  toAddr : String
  value : Nat
deriving DecidableEq, Repr

/-- The 20-byte address encoded in the low bytes of a 32-byte topic:
0x followed by the last 40 characters.  (viem additionally EIP-55
checksums the letter case of decoded addresses; every consumer in the
verifier compares addresses lowercased, so the embedding keeps the
topic's case.) -/
def topicToAddress (t : String) : String :=
  String.mk ('0' :: 'x' :: t.data.drop (t.data.length - 40))

/-- Model of viem parseEventLogs with the Transfer abi on one log: a log
decodes iff it has exactly three topics whose first is the Transfer
signature; non-matching logs are skipped (the parseEventLogs default, so
the try/catch around it in the source never fires). -/
def decodeTransfer (l : EthLog) : Option TransferEvent :=
  match l.topics with
  | [t0, t1, t2] =>
      if t0 = transferSig then
        some { fromAddr := topicToAddress t1, toAddr := topicToAddress t2, value := l.data }
      else none
  | _ => none

/-- Result shape of the verifier ({ valid, payer?, txHash?, error? }). -/
structure VerificationResult where
  valid : Bool
  payer : Option String := none
  txHash : Option String := none
  error : Option String := none
deriving DecidableEq, Repr

/-- Logs emitted by the configured stablecoin contract
(logs.filter(log => log.address.toLowerCase() === usdmAddress)). -/
def usdmLogsOf (u : String) (logs : List EthLog) : List EthLog :=
  logs.filter (fun l => lowerStr l.address = lowerStr u)

/-- Transfer events parsed from the stablecoin logs
(parseEventLogs on usdmLogs). -/
def transfersOf (u : String) (logs : List EthLog) : List TransferEvent :=
  (usdmLogsOf u logs).filterMap decodeTransfer

/-- The parsed transfers whose recipient matches expectedRecipient
case-insensitively (the matches of the summing loop in the source). -/
def recipientTransfers (u : String) (logs : List EthLog) (r : String) : List TransferEvent :=
  (transfersOf u logs).filter (fun t => lowerStr t.toAddr = lowerStr r)

/-- The totalToRecipient accumulator of the source loop: the sum of value
over Transfer events from the stablecoin contract to the expected
recipient (split payments are summed here). -/
def totalToRecipient (u : String) (logs : List EthLog) (r : String) : Nat :=
  ((recipientTransfers u logs r).map TransferEvent.value).sum

/-- Shallow embedding of verifyTransferLogs.  The stablecoin contract
address u is MEGAETH_CONFIG.stablecoin.address (env-configurable), passed
explicitly.  The source loop assigns payer on every matching transfer, so
the final payer is the from-address of the last match. -/
def verifyTransferLogs (u : String) (logs : List EthLog)
    (expectedAmount : Nat) (r : String) : VerificationResult :=
  if (usdmLogsOf u logs).isEmpty then
    { valid := false, error := some ("No USDm transfer found in transaction") }
  else if (transfersOf u logs).isEmpty then
    { valid := false, error := some ("No Transfer events from USDm contract") }
  else if totalToRecipient u logs r = 0 then
    { valid := false, error := some ("No USDm transfer to expected recipient") }
  else if totalToRecipient u logs r < expectedAmount then
    { valid := false, error := some ("Insufficient payment amount") }
  else
    { valid := true,
      payer := ((recipientTransfers u logs r).map TransferEvent.fromAddr).getLast? }

/-- The default MEGAETH_CONFIG.stablecoin.address from src/config/chains.ts. -/
def megaethUsdmAddress : String := "0xFAfDdbb3FC7688494971a79cc65DCa3EF82079E7"

/-- A concrete recipient address used in examples. -/
def sampleRecipient : String := "0xaaaaaaaaaaaaaaaaaaaaaaaaaaaaaaaaaaaaaaaa"

/-- The 32-byte topic encoding of a concrete payer address. -/
def sampleFromTopic : String :=
  "0x000000000000000000000000bbbbbbbbbbbbbbbbbbbbbbbbbbbbbbbbbbbbbbbb"

/-- The 32-byte topic encoding of sampleRecipient. -/
def sampleToTopic : String :=
  "0x000000000000000000000000aaaaaaaaaaaaaaaaaaaaaaaaaaaaaaaaaaaaaaaa"

/-- A stablecoin Transfer log to sampleRecipient carrying the given value. -/
def sampleTransferLog (v : Nat) : EthLog :=
  { address := megaethUsdmAddress
    topics := [transferSig, sampleFromTopic, sampleToTopic]
    data := v }

/-! ## Case-insensitivity of the transfer-log verdict (C7) -/

/-- Two receipt logs that differ only in the hexadecimal letter case of the
addresses they carry: same emitter address up to case, identical first
topic (the event signature), remaining topics equal up to case (these
encode the from/to addresses), and identical data word. -/
def logCaseEq (l l' : EthLog) : Prop :=
  lowerStr l.address = lowerStr l'.address
  ∧ l.topics.head? = l'.topics.head?
  ∧ List.Forall₂ (fun t t' => lowerStr t = lowerStr t') l.topics l'.topics
  ∧ l.data = l'.data

/-- Two decoded transfers equal up to address case (same value, same
recipient up to case). -/
def transferCaseEq (t t' : TransferEvent) : Prop :=
  lowerStr t.toAddr = lowerStr t'.toAddr ∧ t.value = t'.value

/-- The sample recipient address with its hex letters upper-cased. -/
def sampleRecipientUpper : String := "0xAAAAAAAAAAAAAAAAAAAAAAAAAAAAAAAAAAAAAAAA"

/-- The sample transfer log with every address hex letter upper-cased
(emitter address and the to-topic; the event-signature topic unchanged). -/
def sampleTransferLogUpper (v : Nat) : EthLog :=
  { address := "0xFAFDDBB3FC7688494971A79CC65DCA3EF82079E7"
    topics := [transferSig, sampleFromTopic,
      "0x000000000000000000000000AAAAAAAAAAAAAAAAAAAAAAAAAAAAAAAAAAAAAAAA"]
    data := v }

/-! ## Replay ledger (src/db/ledger.ts) and the fast-rail verifier (C1, C6, C10) -/

/-- The used_tx_hashes table: the set of recorded proof keys, modelled as
the list of inserted (lowercased) hashes. -/
structure LedgerDb where
  used : List String
deriving DecidableEq, Repr

/-- Shallow embedding of recordTxHash: an atomic
INSERT ... ON CONFLICT (tx_hash) DO NOTHING of txHash.toLowerCase().
Returns true iff a row was inserted.  dbOk is the oracle for whether the
underlying query succeeds: the source wraps the INSERT in try/catch and
returns false on any error, leaving the table unchanged (the payer,
amount and network arguments are payload columns that do not influence
the returned boolean and are not modelled). -/
def recordTxHash (dbOk : Bool) (db : LedgerDb) (txHash : String) : LedgerDb × Bool :=
  if ¬ dbOk then (db, false)
  else if lowerStr txHash ∈ db.used then (db, false)
  else ({ used := lowerStr txHash :: db.used }, true)

/-- Shallow embedding of isTxHashUsed:
SELECT 1 FROM used_tx_hashes WHERE tx_hash = txHash.toLowerCase(). -/
def isTxHashUsed (db : LedgerDb) (txHash : String) : Bool :=
  lowerStr txHash ∈ db.used

/-- A transaction receipt as returned by eth_getTransactionReceipt:
status ("success" or "reverted") and the logs list. -/
structure Receipt where
  status : String
  logs : List EthLog
deriving DecidableEq, Repr

/-- A fast-rail payment proof ({ txHash }).  The optional receipt field of
the source interface is never trusted: the verifier always re-fetches, so
it is not modelled. -/
structure PaymentProof where
  txHash : String
deriving DecidableEq, Repr

/-- Outcome of one verifier invocation: the ledger state after the call,
the verification result, and whether the RPC receipt fetch was reached. -/
structure VerifyOutcome where
  db : LedgerDb
  result : VerificationResult
  rpcCalled : Bool
deriving DecidableEq, Repr

/-- An invalid VerificationResult carrying only an error message. -/
def invalidResult (msg : String) : VerificationResult :=
  { valid := false, error := some msg }

/-- The valid VerificationResult returned on acceptance:
{ valid: true, payer, txHash }. -/
def validResult (payer : Option String) (txHash : String) : VerificationResult :=
  { valid := true, payer := payer, txHash := some txHash }

/-- Shallow embedding of verifyMegaETHPayment (the PostgreSQL-backed
revision).  fetch is the oracle outcome of client.getTransactionReceipt:
none models a throw (transaction not found or RPC failure, caught by the
same catch); dbOk models whether the ledger INSERT succeeds.  The
receipt-shape guard (!receipt || !receipt.logs || !Array.isArray(...))
cannot fire on a typed receipt and is not modelled. -/
def verifyMegaETHPayment (usdmAddress : String) (dbOk : Bool) (db : LedgerDb)
    (proof : PaymentProof) (expectedAmount : Nat) (expectedRecipient : String)
    (fetch : Option Receipt) : VerifyOutcome :=
  -- const txHash = proof.txHash.toLowerCase()
  -- if (!/^0x[a-fA-F0-9]{40}$/.test(expectedRecipient)) ...
  if ¬ isEthAddressFormat expectedRecipient then
    ⟨db, invalidResult ("Invalid recipient address format"), false⟩
  -- const alreadyUsed = await isTxHashUsed(txHash)
  else if isTxHashUsed db (lowerStr proof.txHash) then
    ⟨db, invalidResult ("Transaction already used for payment"), false⟩
  else
    -- receipt = await client.getTransactionReceipt({ hash: txHash })
    match fetch with
    | none => ⟨db, invalidResult ("Transaction not found on MegaETH"), true⟩
    | some receipt =>
        if receipt.status ≠ "success" then
          ⟨db, invalidResult ("Transaction reverted"), true⟩
        else if (verifyTransferLogs usdmAddress receipt.logs expectedAmount expectedRecipient).valid
            then
          -- const inserted = await recordTxHash(txHash, ...)
          (if (recordTxHash dbOk db (lowerStr proof.txHash)).2 then
            ⟨(recordTxHash dbOk db (lowerStr proof.txHash)).1,
              validResult
                (verifyTransferLogs usdmAddress receipt.logs expectedAmount expectedRecipient).payer
                (lowerStr proof.txHash),
              true⟩
          else
            ⟨(recordTxHash dbOk db (lowerStr proof.txHash)).1,
              invalidResult ("Transaction already used for payment (race)"), true⟩)
        else
          ⟨db, verifyTransferLogs usdmAddress receipt.logs expectedAmount expectedRecipient, true⟩

/-! ### Concurrent at-most-once acceptance (C1)

Concurrency model: PostgreSQL serializes the INSERT ... ON CONFLICT
statements on the used_tx_hashes primary key, so an interleaved execution
of verifier invocations is abstracted by the serialization order of their
recordTxHash calls.  Every step an invocation takes before its insert
(recipient check, isTxHashUsed pre-check, receipt fetch, transfer-log
check) only decides whether the invocation reaches the insert at all;
reaching it is abstracted by the reaches flag, chosen adversarially. -/

/-- One invocation at its serialization point. -/
structure RecordOp where
  txHash : String
  dbOk : Bool
  reaches : Bool
deriving DecidableEq, Repr

/-- Execute the recordTxHash calls of a list of invocations in
serialization order over the shared table; an invocation that never
reaches its insert contributes false (it cannot return valid). -/
def runRecords : LedgerDb → List RecordOp → LedgerDb × List Bool
  | db, [] => (db, [])
  | db, op :: rest =>
      if op.reaches then
        ((runRecords (recordTxHash op.dbOk db op.txHash).1 rest).1,
          (recordTxHash op.dbOk db op.txHash).2
            :: (runRecords (recordTxHash op.dbOk db op.txHash).1 rest).2)
      else
        ((runRecords db rest).1, false :: (runRecords db rest).2)

/-- Number of invocations for proof key k (identified up to lowercasing)
whose insert succeeded. -/
def successCount (k : String) : List RecordOp → List Bool → Nat
  | [], _ => 0
  | _ :: _, [] => 0
  | op :: ops, r :: rs =>
      (if lowerStr op.txHash = k ∧ r = true then 1 else 0) + successCount k ops rs

/-- A concrete well-formed transaction hash (0x + 64 hex characters,
upper-case to exercise the lowercase normalization). -/
def sampleTxHash : String :=
  "0xCCCCCCCCCCCCCCCCCCCCCCCCCCCCCCCCCCCCCCCCCCCCCCCCCCCCCCCCCCCCCCCC"

/-- A concrete success receipt paying 5 base units to sampleRecipient. -/
def sampleReceipt : Receipt := ⟨"success", [sampleTransferLog 5]⟩

/-! ### Proof-format validation (C6) -/

/-- Modelled from the spec: the transaction-hash format the spec says is
validated before any RPC call — 0x followed by exactly 64 hexadecimal
characters.  The code contains no such check (the verifier only validates
the recipient; the middleware only requires a 0x prefix). -/
def specTxHashFormat (s : String) : Bool :=
  match s.data with
  | '0' :: 'x' :: rest => rest.length = 64 ∧ rest.all isHexChar
  | _ => false

/-- A 0x-prefixed string that is not a well-formed 64-hex transaction hash. -/
def shortTxHash : String := "0xABC"

/-! ## Base64 (Buffer.from(x).toString("base64") and Buffer.from(h, "base64"))

Bytes are Nats < 256.  The decoder is Node's forgiving one: characters
outside the base64 alphabet (including padding) are skipped, then the
6-bit groups are packed and any trailing partial byte is dropped. -/

def base64Alphabet : List Char :=
  "ABCDEFGHIJKLMNOPQRSTUVWXYZabcdefghijklmnopqrstuvwxyz0123456789+/".data

def sextetToChar (n : Nat) : Char := base64Alphabet.getD n '='

def charToSextet (c : Char) : Option Nat := base64Alphabet.findIdx? (fun x => x = c)

/-- Pack bytes into 6-bit groups, big-endian bit order (RFC 4648). -/
def bytesToSextets : List Nat → List Nat
  | [] => []
  | [a] => [a / 4, a % 4 * 16]
  | [a, b] => [a / 4, a % 4 * 16 + b / 16, b % 16 * 4]
  | a :: b :: c :: rest =>
      a / 4 :: (a % 4 * 16 + b / 16) :: (b % 16 * 4 + c / 64) :: c % 64 :: bytesToSextets rest

/-- Unpack 6-bit groups into bytes, dropping a trailing partial byte. -/
def sextetsToBytes : List Nat → List Nat
  | [] => []
  | [_] => []
  | [a, b] => [a * 4 + b / 16]
  | [a, b, c] => [a * 4 + b / 16, b % 16 * 16 + c / 4]
  | a :: b :: c :: d :: rest =>
      (a * 4 + b / 16) :: (b % 16 * 16 + c / 4) :: (c % 4 * 64 + d) :: sextetsToBytes rest

/-- Padding characters appended by the strict encoder. -/
def b64PadChars (byteLen : Nat) : List Char :=
  if byteLen % 3 = 1 then ['=', '=']
  else if byteLen % 3 = 2 then ['=']
  else []

def b64EncodeBytes (bytes : List Nat) : List Char :=
  (bytesToSextets bytes).map sextetToChar ++ b64PadChars bytes.length

def b64DecodeChars (chars : List Char) : List Nat :=
  sextetsToBytes (chars.filterMap charToSextet)

/-- UTF-16 code units of a JS string; on the ASCII data handled here these
coincide with its UTF-8 bytes. -/
def charCodes (s : String) : List Nat := s.data.map Char.toNat

/-! ## JSON values and JSON.parse (for the payment-header codec)

Numbers are kept as their lexemes: no consumer of a decoded payment
header reads a numeric value (the middleware only inspects strings), and
the numeric-token scanner is slightly more lenient than the JSON grammar.
Strings: the common escapes are handled; \uXXXX escapes are not (no
payment payload field needs them). -/

inductive Json where
  | null : Json
  | bool (b : Bool) : Json
  | num (lexeme : String) : Json
  | str (s : String) : Json
  | arr (elems : List Json) : Json
  | obj (fields : List (String × Json)) : Json

def skipWs : List Char → List Char
  | [] => []
  | c :: rest =>
      if c = ' ' ∨ c = '\t' ∨ c = '\n' ∨ c = '\r' then skipWs rest else c :: rest

/-- Consume an expected literal character sequence. -/
def stripLit : List Char → List Char → Option (List Char)
  | [], s => some s
  | _ :: _, [] => none
  | p :: ps, c :: cs => if c = p then stripLit ps cs else none

/-- Parse the remainder of a JSON string literal (after the opening quote). -/
def parseJsonStr : Nat → List Char → Option (String × List Char)
  | 0, _ => none
  | _ + 1, [] => none
  | fuel + 1, c :: rest =>
      if c = '"' then some ("", rest)
      else if c = '\\' then
        match rest with
        | [] => none
        | e :: rest2 =>
            let esc : Option Char :=
              if e = '"' then some '"'
              else if e = '\\' then some '\\'
              else if e = '/' then some '/'
              else if e = 'n' then some '\n'
              else if e = 't' then some '\t'
              else if e = 'r' then some '\r'
              else if e = 'b' then some (Char.ofNat 8)
              else if e = 'f' then some (Char.ofNat 12)
              else none
            match esc with
            | none => none
            | some ch =>
                (parseJsonStr fuel rest2).map (fun x => (String.mk (ch :: x.1.data), x.2))
      else (parseJsonStr fuel rest).map (fun x => (String.mk (c :: x.1.data), x.2))

def isNumChar (c : Char) : Bool :=
  c.isDigit ∨ c = '-' ∨ c = '+' ∨ c = '.' ∨ c = 'e' ∨ c = 'E'

def parseJsonNum (s : List Char) : Option (String × List Char) :=
  let tok := s.takeWhile isNumChar
  if tok.isEmpty then none else some (String.mk tok, s.drop tok.length)

mutual

def parseJsonValue : Nat → List Char → Option (Json × List Char)
  | 0, _ => none
  | fuel + 1, s =>
      match skipWs s with
      | [] => none
      | c :: rest =>
          if c = 'n' then (stripLit ['u', 'l', 'l'] rest).map (fun r => (Json.null, r))
          else if c = 't' then (stripLit ['r', 'u', 'e'] rest).map (fun r => (Json.bool true, r))
          else if c = 'f' then
            (stripLit ['a', 'l', 's', 'e'] rest).map (fun r => (Json.bool false, r))
          else if c = '"' then (parseJsonStr fuel rest).map (fun x => (Json.str x.1, x.2))
          else if c = '[' then
            match skipWs rest with
            | ']' :: rest2 => some (Json.arr [], rest2)
            | _ => (parseJsonArrayItems fuel rest).map (fun x => (Json.arr x.1, x.2))
          else if c = '\x7b' then
            match skipWs rest with
            | '\x7d' :: rest2 => some (Json.obj [], rest2)
            | _ => (parseJsonObjectItems fuel rest).map (fun x => (Json.obj x.1, x.2))
          else (parseJsonNum (c :: rest)).map (fun x => (Json.num x.1, x.2))

def parseJsonArrayItems : Nat → List Char → Option (List Json × List Char)
  | 0, _ => none
  | fuel + 1, s =>
      match parseJsonValue fuel s with
      | none => none
      | some (v, rest) =>
          match skipWs rest with
          | ',' :: rest2 =>
              (parseJsonArrayItems fuel rest2).map (fun x => (v :: x.1, x.2))
          | ']' :: rest2 => some ([v], rest2)
          | _ => none

def parseJsonObjectItems : Nat → List Char → Option (List (String × Json) × List Char)
  | 0, _ => none
  | fuel + 1, s =>
      match skipWs s with
      | '"' :: rest =>
          match parseJsonStr fuel rest with
          | none => none
          | some (key, rest2) =>
              match skipWs rest2 with
              | ':' :: rest3 =>
                  match parseJsonValue fuel rest3 with
                  | none => none
                  | some (v, rest4) =>
                      match skipWs rest4 with
                      | ',' :: rest5 =>
                          (parseJsonObjectItems fuel rest5).map
                            (fun x => ((key, v) :: x.1, x.2))
                      | '\x7d' :: rest5 => some ([(key, v)], rest5)
                      | _ => none
              | _ => none
      | _ => none

end

/-- Model of JSON.parse on a character sequence: parse one value, require
only whitespace after it; None models a thrown SyntaxError. -/
def jsonParse (s : List Char) : Option Json :=
  match parseJsonValue (s.length * 4 + 8) s with
  | none => none
  | some (j, rest) => if (skipWs rest).isEmpty then some j else none

/-- Object field lookup as JS property access on a parsed object: with
duplicate keys JSON.parse keeps the last occurrence. -/
def jGet (j : Json) (key : String) : Option Json :=
  match j with
  | Json.obj fields => (fields.reverse.find? (fun f => f.1 = key)).map (fun f => f.2)
  | _ => none

/-- Read a JSON value as a string, as the as-string casts in the source
(non-strings behave like an absent field for the middleware logic). -/
def jStr : Json → Option String
  | Json.str s => some s
  | _ => none

/-! ## Service registry and routes config (src/services/registry.ts) -/

/-- Model of the JS toUpperCase on ASCII data (method.toUpperCase()). -/
def jsUpperChar (c : Char) : Char :=
  if 'a' ≤ c ∧ c ≤ 'z' then Char.ofNat (c.toNat - 32) else c

def upperStr (s : String) : String :=
  String.mk (s.data.map jsUpperChar)

/-- The NETWORKS table of src/services/registry.ts. -/
def networkBase : String := "eip155:8453"

def networkBaseSepolia : String := "eip155:84532"

def networkSolana : String := "solana:5eykt4UsFv8P8NJdTREpY1vzqKqZKvdp"

def networkSolanaDevnet : String := "solana:EtWTRABZaYq6iMfeYKouRu166VU2xqa1"

def networkMegaeth : String := "eip155:4326"

/-- Stablecoin contract of BASE_CONFIG (USDC, 6 decimals). -/
def baseUsdcAddress : String := "0x833589fCD6eDb6E08f4c7C32D4f71b54bdA02913"

/-- Stablecoin contract of BASE_SEPOLIA_CONFIG (USDC, 6 decimals). -/
def baseSepoliaUsdcAddress : String := "0x036CbD53842c5426634e7929541eC2318f3dCF7e"

/-- Solana USDC mint used in the Solana accept entry. -/
def solanaUsdcAddress : String := "EPjFWdd5AufqSSqeM2qN1xzybapC8G4wEGGkZwyTDt1v"

/-- CDP facilitator fee payers (devnet / mainnet). -/
def solFeePayerDev : String := "BENrLoUbndxoNMUS5JXApGMtNykLjFXXixMtpDwDR9SP"

def solFeePayerProd : String := "GVJJ7rdGiXr5xaYbRwRbjfaJL7fmwRygFi1H6aGqDveb"

/-- A service catalog entry (the fields of services.json consumed by the
routes builder; upstream/parameters/category are not). -/
structure ServiceDefinition where
  id : String
  name : String
  description : String
  price : String
  method : String
  path : String
  mimeType : String
deriving DecidableEq, Repr

/-- The recipient/environment configuration consumed by buildRoutesConfig. -/
structure GatewayConfig where
  isDev : Bool
  payToEvm : Option String
  payToSolana : Option String
deriving DecidableEq, Repr

/-- One accept entry as built by buildRoutesConfig (enriched revision).
Option fields model JS object fields that may be absent; amount is None
exactly when priceStringToTokenAmount would have thrown at startup. -/
structure AcceptEntry where
  scheme : String
  price : Option String
  network : String
  asset : Option String
  amount : Option String
  payTo : String
  maxTimeoutSeconds : Option Nat
  extraName : Option String
  extraVersion : Option String
  extraFeePayer : Option String
deriving DecidableEq, Repr

def intToDecString (n : Int) : String := toString n

/-- The Base (or Base Sepolia in dev) accept entry for a service. -/
def baseAcceptEntry (cfg : GatewayConfig) (svc : ServiceDefinition)
    (payTo : String) : AcceptEntry :=
  { scheme := "exact"
    price := some svc.price
    network := if cfg.isDev then networkBaseSepolia else networkBase
    asset := some (if cfg.isDev then baseSepoliaUsdcAddress else baseUsdcAddress)
    amount := (priceStringToTokenAmount svc.price 6).map intToDecString
    payTo := payTo
    maxTimeoutSeconds := some 300
    extraName := some ("USD Coin")
    extraVersion := some ("2")
    extraFeePayer := none }

/-- The MegaETH accept entry for a service (same EVM payTo address). -/
def megaethAcceptEntry (svc : ServiceDefinition) (payTo : String) : AcceptEntry :=
  { scheme := "exact"
    price := some svc.price
    network := networkMegaeth
    asset := some megaethUsdmAddress
    amount := (priceStringToTokenAmount svc.price 18).map intToDecString
    payTo := payTo
    maxTimeoutSeconds := some 300
    extraName := some ("USDm")
    extraVersion := some ("2")
    extraFeePayer := none }

/-- The Solana accept entry for a service (USDC, 6 decimals). -/
def solanaAcceptEntry (cfg : GatewayConfig) (svc : ServiceDefinition)
    (payTo : String) : AcceptEntry :=
  { scheme := "exact"
    price := some svc.price
    network := if cfg.isDev then networkSolanaDevnet else networkSolana
    asset := some solanaUsdcAddress
    amount := (priceStringToTokenAmount svc.price 6).map intToDecString
    payTo := payTo
    maxTimeoutSeconds := some 300
    extraName := none
    extraVersion := none
    extraFeePayer := some (if cfg.isDev then solFeePayerDev else solFeePayerProd) }

/-- The accepts array for one service: Base and MegaETH entries when an
EVM recipient is configured, plus a Solana entry when a Solana recipient
is configured (in that order). -/
def buildAccepts (cfg : GatewayConfig) (svc : ServiceDefinition) : List AcceptEntry :=
  (match cfg.payToEvm with
   | none => []
   | some payTo => [baseAcceptEntry cfg svc payTo, megaethAcceptEntry svc payTo])
  ++ (match cfg.payToSolana with
   | none => []
   | some payTo => [solanaAcceptEntry cfg svc payTo])

/-- One routes-config entry. -/
structure Route where
  accepts : List AcceptEntry
  description : String
  mimeType : String
deriving DecidableEq, Repr

def mkRoute (cfg : GatewayConfig) (svc : ServiceDefinition) : Route :=
  { accepts := buildAccepts cfg svc
    description := svc.description
    mimeType := svc.mimeType }

/-- Shallow embedding of buildRoutesConfig: an object keyed by
"METHOD path"; a later service with the same key overwrites an earlier
one, as JS property assignment does. -/
def buildRoutesConfig (services : List ServiceDefinition) (cfg : GatewayConfig) :
    String -> Option Route :=
  services.foldl
    (fun routes svc => fun k =>
      if k = svc.method ++ " " ++ svc.path then some (mkRoute cfg svc) else routes k)
    (fun _ => none)

/-! ## JSON.stringify of the 402 payload and the enriched 402 middleware -/

def jsonEscapeChar (c : Char) : List Char :=
  if c = '"' then ['\\', '"']
  else if c = '\\' then ['\\', '\\']
  else [c]

def jsonEscape (s : String) : String := String.mk (s.data.map jsonEscapeChar).flatten

def qstr (s : String) : String := "\"" ++ jsonEscape s ++ "\""

def jfield (k v : String) : String := qstr k ++ ":" ++ v

def renderExtra (a : AcceptEntry) : String :=
  "\x7b" ++ String.intercalate (",")
    ((match a.extraName with | none => [] | some x => [jfield ("name") (qstr x)])
     ++ (match a.extraVersion with | none => [] | some x => [jfield ("version") (qstr x)])
     ++ (match a.extraFeePayer with | none => [] | some x => [jfield ("feePayer") (qstr x)]))
  ++ "\x7d"

/-- JSON.stringify of one accept entry, absent fields omitted, insertion
order preserved. -/
def renderAccept (a : AcceptEntry) : String :=
  "\x7b" ++ String.intercalate (",")
    ([jfield ("scheme") (qstr a.scheme)]
     ++ (match a.price with | none => [] | some p => [jfield ("price") (qstr p)])
     ++ [jfield ("network") (qstr a.network)]
     ++ (match a.asset with | none => [] | some x => [jfield ("asset") (qstr x)])
     ++ (match a.amount with | none => [] | some x => [jfield ("amount") (qstr x)])
     ++ [jfield ("payTo") (qstr a.payTo)]
     ++ (match a.maxTimeoutSeconds with
         | none => []
         | some n => [jfield ("maxTimeoutSeconds") (toString n)])
     ++ (if a.extraName = none ∧ a.extraVersion = none ∧ a.extraFeePayer = none then []
         else [jfield ("extra") (renderExtra a)]))
  ++ "\x7d"

/-- The paymentRequired object built by enriched402Middleware. -/
structure PaymentRequired402 where
  x402Version : Nat
  error : String
  resourceUrl : String
  resourceDescription : String
  resourceMimeType : String
  accepts : List AcceptEntry
deriving DecidableEq, Repr

/-- JSON.stringify of the paymentRequired object. -/
def renderPaymentRequired (p : PaymentRequired402) : String :=
  "\x7b" ++ String.intercalate (",")
    [jfield ("x402Version") (toString p.x402Version),
     jfield ("error") (qstr p.error),
     jfield ("resource") ("\x7b" ++ String.intercalate (",")
       [jfield ("url") (qstr p.resourceUrl),
        jfield ("description") (qstr p.resourceDescription),
        jfield ("mimeType") (qstr p.resourceMimeType)] ++ "\x7d"),
     jfield ("accepts") ("[" ++ String.intercalate (",") (p.accepts.map renderAccept) ++ "]")]
  ++ "\x7d"

/-- The request fields consumed by the payment middlewares. -/
structure HttpRequest where
  method : String
  path : String
  protocol : String
  host : String
  originalUrl : String
  paymentSignature : Option String
  xPayment : Option String
deriving DecidableEq, Repr

/-- JS truthiness of a header value: absent or empty is falsy. -/
def jsTruthy (o : Option String) : Bool :=
  match o with
  | none => false
  | some s => s ≠ ""

/-- req.path.split("?")[0]: the characters before the first question mark. -/
def pathBeforeQuery (path : String) : String :=
  String.mk (path.data.takeWhile (fun c => c ≠ '?'))

/-- The spread { price, ...rest } that strips the price field from an
accept entry echoed in a 402. -/
def stripPrice (a : AcceptEntry) : AcceptEntry := { a with price := none }

/-- route.description || "API endpoint" and route.mimeType || "application/json". -/
def jsOrDefault (s dflt : String) : String := if s = "" then dflt else s

def payment402Payload (req : HttpRequest) (route : Route) : PaymentRequired402 :=
  { x402Version := 2
    error := "Payment required"
    resourceUrl := req.protocol ++ "://" ++ req.host ++ req.originalUrl
    resourceDescription := jsOrDefault route.description ("API endpoint")
    resourceMimeType := jsOrDefault route.mimeType ("application/json")
    accepts := route.accepts.map stripPrice }

/-- The HTTP response written for an unpaid request to a paid route. -/
structure Response402 where
  status : Nat
  paymentRequiredHeader : String
  exposeHeader : String
  body : String
deriving DecidableEq, Repr

def mk402Response (req : HttpRequest) (route : Route) : Response402 :=
  { status := 402
    paymentRequiredHeader :=
      String.mk (b64EncodeBytes (charCodes (renderPaymentRequired (payment402Payload req route))))
    exposeHeader := "PAYMENT-REQUIRED,PAYMENT-RESPONSE,X-Request-ID"
    body := "\x7b\x7d" }

/-- Shallow embedding of enriched402Middleware: None is next() (no
response written). -/
def enriched402Middleware (routes : String → Option Route) (req : HttpRequest) :
    Option Response402 :=
  if jsTruthy req.paymentSignature ∨ jsTruthy req.xPayment then none
  else
    match routes (req.method ++ " " ++ pathBeforeQuery req.path) with
    | none => none
    | some route => some (mk402Response req route)

/-- A concrete service catalog entry for witnesses. -/
def sampleService : ServiceDefinition :=
  { id := "weather-current"
    name := "Weather"
    description := "Current weather"
    price := "$0.001"
    method := "GET"
    path := "/api/weather/current"
    mimeType := "application/json" }

/-- A concrete gateway configuration with an EVM recipient. -/
def sampleConfig : GatewayConfig :=
  { isDev := false, payToEvm := some sampleRecipient, payToSolana := none }

/-- A concrete unpaid request to the sample paid route. -/
def sampleRequest : HttpRequest :=
  { method := "GET"
    path := "/api/weather/current"
    protocol := "https"
    host := "api.example.com"
    originalUrl := "/api/weather/current?q=London"
    paymentSignature := none
    xPayment := none }

/-! ## Fast-rail payment middleware (megaethPaymentMiddleware) -/

/-- headers["payment-signature"] || headers["x-payment"], with JS
falsiness of absent and empty values. -/
def jsOrHeader (a b : Option String) : Option String :=
  if jsTruthy a then a else if jsTruthy b then b else none

/-- Base64-decode the header (Node's forgiving decoder, which never
throws), then JSON.parse; None models a parse failure. -/
def decodePaymentHeader (header : String) : Option Json :=
  jsonParse ((b64DecodeChars header.data).map Char.ofNat)

/-- Classify decoded.accepted?.network into the rail tags of the source. -/
def detectNetwork (decoded : Json) : String :=
  match ((jGet decoded ("accepted")).bind (fun a => jGet a ("network"))).bind jStr with
  | none => ("unknown")
  | some n =>
      if n = networkMegaeth then ("megaeth")
      else if n = networkBase ∨ n = networkBaseSepolia then ("base")
      else if n = networkSolana ∨ n = networkSolanaDevnet then ("solana")
      else ("unknown")

/-- decoded.payload?.txHash as a string. -/
def txHashOf (decoded : Json) : Option String :=
  ((jGet decoded ("payload")).bind (fun p => jGet p ("txHash"))).bind jStr

/-- The requirement extracted for the matched route: the megaeth accept
entry's price string and recipient. -/
structure RouteRequirement where
  amount : String
  payTo : String
deriving DecidableEq, Repr

def getRouteRequirements (routes : String → Option Route) (method path : String) :
    Option RouteRequirement :=
  match routes (upperStr method ++ " " ++ pathBeforeQuery path) with
  | none => none
  | some route =>
      match route.accepts.find? (fun a => a.network = networkMegaeth) with
      | none => none
      | some a =>
          -- accept entries built by buildRoutesConfig always carry price
          match a.price with
          | none => none
          | some p => some ⟨p, a.payTo⟩

/-- Outcome of the middleware on one request: pass through unchanged,
write a 402 rejection, annotate the request as paid and continue, or
propagate a thrown exception (internalError). -/
inductive MwResult where
  | next : MwResult
  | reject (error : String) (reason : Option String) : MwResult
  | accept (payer : Option String) (amount : Nat) (txHash : Option String) : MwResult
  | internalError : MwResult
deriving DecidableEq, Repr

/-- The verification tail of the middleware once a 0x-prefixed txHash was
extracted: on success annotate payer/amount/txHash, on failure reject
with the verifier's error as reason. -/
def runMegaethVerification (dbOk : Bool) (db : LedgerDb) (fetch : Option Receipt)
    (txHash : String) (expectedAmount : Nat) (payTo : String) : MwResult × LedgerDb :=
  let o := verifyMegaETHPayment megaethUsdmAddress dbOk db ⟨txHash⟩ expectedAmount payTo fetch
  if o.result.valid then
    (MwResult.accept o.result.payer expectedAmount o.result.txHash, o.db)
  else
    (MwResult.reject ("Payment verification failed") o.result.error, o.db)

/-- Shallow embedding of megaethPaymentMiddleware.  The stablecoin
address used by the verifier is the configured MEGAETH_CONFIG default.
The expected amount conversion can throw inside priceStringToTokenAmount
(modelled by internalError, reached only for a malformed catalog price). -/
def megaethPaymentMiddleware (routes : String → Option Route) (dbOk : Bool) (db : LedgerDb)
    (fetch : Option Receipt) (req : HttpRequest) : MwResult × LedgerDb :=
  match jsOrHeader req.paymentSignature req.xPayment with
  | none => (MwResult.next, db)
  | some header =>
      match decodePaymentHeader header with
      | none => (MwResult.next, db)
      | some decoded =>
          if detectNetwork decoded ≠ "megaeth" then (MwResult.next, db)
          else
            match getRouteRequirements routes req.method req.path with
            | none => (MwResult.next, db)
            | some routeReq =>
                match priceStringToTokenAmount routeReq.amount 18 with
                | none => (MwResult.internalError, db)
                | some expectedAmount =>
                    match txHashOf decoded with
                    | none =>
                        (MwResult.reject
                          ("MegaETH payments require a txHash in the payload") none, db)
                    | some txHash =>
                        if ¬ startsWith0x txHash then
                          (MwResult.reject
                            ("MegaETH payments require a txHash in the payload") none, db)
                        else
                          runMegaethVerification dbOk db fetch txHash
                            expectedAmount.toNat routeReq.payTo

/-- The JSON text of a payment header targeting the Base rail. -/
def sampleBaseHeaderJson : String := "\x7b\"accepted\":\x7b\"network\":\"eip155:8453\"\x7d\x7d"

/-- Its base64 encoding, as a client would send it. -/
def sampleBaseHeader : String := String.mk (b64EncodeBytes (charCodes sampleBaseHeaderJson))

/-- Its decoded JSON value. -/
def sampleBaseDecoded : Json :=
  Json.obj [("accepted", Json.obj [("network", Json.str ("eip155:8453"))])]

/-- The JSON text of a payment header targeting the fast rail. -/
def sampleMegaHeaderJson : String := "\x7b\"accepted\":\x7b\"network\":\"eip155:4326\"\x7d\x7d"

def sampleMegaHeader : String := String.mk (b64EncodeBytes (charCodes sampleMegaHeaderJson))

def sampleMegaDecoded : Json :=
  Json.obj [("accepted", Json.obj [("network", Json.str ("eip155:4326"))])]

/-- A syntactically invalid recipient (too short). -/
def badRecipient : String := "0x123"

/-! ## Credential pool (src/lib/key-pool.ts, class KeyPool) -/

/-- Per-provider pool state: \x7bkeys, index, totalAcquires\x7d. -/
structure ProviderPool where
  keys : List String
  index : Nat
  totalAcquires : Nat
deriving DecidableEq, Repr

/-- The pools map of the KeyPool singleton. -/
def KeyPoolState : Type := String → Option ProviderPool

def emptyKeyPool : KeyPoolState := fun _ => none

/-- Shallow embedding of KeyPool.register: keys.filter(Boolean) drops
empty strings; if nothing remains the call is a no-op; otherwise the
provider's pool is replaced with the filtered list at index 0. -/
def register (s : KeyPoolState) (provider : String) (keys : List String) : KeyPoolState :=
  if (keys.filter (fun k => k ≠ "")).isEmpty then s
  else fun p =>
    if p = provider then some ⟨keys.filter (fun k => k ≠ ""), 0, 0⟩ else s p

/-- Shallow embedding of KeyPool.acquire: null when the provider is
unknown or has no keys; otherwise the key at the current index, with the
index advanced modulo the key count and totalAcquires incremented. -/
def acquire (s : KeyPoolState) (provider : String) : Option String × KeyPoolState :=
  match s provider with
  | none => (none, s)
  | some pool =>
      if pool.keys.isEmpty then (none, s)
      else
        (some (pool.keys.getD pool.index ("")),
          fun p =>
            if p = provider then
              some ⟨pool.keys, (pool.index + 1) % pool.keys.length, pool.totalAcquires + 1⟩
            else s p)

/-- n consecutive acquires for one provider. -/
def acquireRun (provider : String) : KeyPoolState → Nat → List (Option String) × KeyPoolState
  | s, 0 => ([], s)
  | s, n + 1 =>
      ((acquire s provider).1 :: (acquireRun provider (acquire s provider).2 n).1,
        (acquireRun provider (acquire s provider).2 n).2)

/-- An operation on the key-pool singleton. -/
inductive PoolOp where
  | register (provider : String) (keys : List String) : PoolOp
  | acquire (provider : String) : PoolOp

def runPoolOps : KeyPoolState → List PoolOp → KeyPoolState
  | s, [] => s
  | s, PoolOp.register p ks :: rest => runPoolOps (register s p ks) rest
  | s, PoolOp.acquire p :: rest => runPoolOps (acquire s p).2 rest

/-- A registration for this provider that actually installed keys. -/
def successfulReg (provider : String) : PoolOp → Prop
  | PoolOp.register p ks => p = provider ∧ ks.filter (fun k => k ≠ "") ≠ []
  | PoolOp.acquire _ => False

/-- The sample pool registered with one empty and two real secrets. -/
def samplePool : KeyPoolState :=
  register emptyKeyPool ("coingecko") ["k1", "", "k2"]

/-! ## Theorems -/

example : priceStringToTokenAmount ("$0.001") 18 = some 1000000000000000 := by decide

example : priceStringToTokenAmount ("$1.25") 6 = some 1250000 := by decide

example : priceStringToTokenAmount ("0.0000001") 18 = some 100000000000 := by decide

/-! ### Arithmetic facts about digitsVal and the list operations -/

theorem digitsVal_foldl (acc : Nat) (l : List Char) :
    l.foldl (fun a c => a * 10 + (c.toNat - '0'.toNat)) acc
      = acc * 10 ^ l.length + digitsVal l := by
  induction l generalizing acc with
  | nil => simp [digitsVal]
  | cons c t ih =>
      simp only [List.foldl_cons, List.length_cons, digitsVal]
      rw [ih, ih (0 * 10 + (c.toNat - '0'.toNat))]
      ring

theorem digitsVal_append (xs ys : List Char) :
    digitsVal (xs ++ ys) = digitsVal xs * 10 ^ ys.length + digitsVal ys := by
  unfold digitsVal
  rw [List.foldl_append, digitsVal_foldl]
  rfl

theorem digitsVal_replicate_zero (n : Nat) :
    digitsVal (List.replicate n '0') = 0 := by
  induction n with
  | zero => rfl
  | succ k ih =>
      rw [List.replicate_succ]
      have h2 : digitsVal ('0' :: List.replicate k '0')
          = digitsVal ['0'] * 10 ^ k + digitsVal (List.replicate k '0') := by
        simpa using digitsVal_append ['0'] (List.replicate k '0')
      rw [h2, ih]
      simp [show digitsVal ['0'] = 0 from rfl]

theorem digitsVal_cons_zero (t : List Char) :
    digitsVal ('0' :: t) = digitsVal t := by
  have h := digitsVal_append ['0'] t
  simp only [List.singleton_append] at h
  rw [h, show digitsVal ['0'] = 0 from rfl]
  simp

theorem digitsVal_dropWhile_zero (l : List Char) :
    digitsVal (l.dropWhile (fun c => c = '0')) = digitsVal l := by
  induction l with
  | nil => rfl
  | cons c t ih =>
      by_cases h : c = '0'
      · subst h
        rw [List.dropWhile_cons_of_pos (by simp), ih, digitsVal_cons_zero]
      · rw [List.dropWhile_cons_of_neg (by simp [h])]

theorem digitsVal_all_zero (l : List Char) (h : ∀ c ∈ l, c = '0') :
    digitsVal l = 0 := by
  induction l with
  | nil => rfl
  | cons c t ih =>
      have hc : c = '0' := h c (by simp)
      subst hc
      rw [digitsVal_cons_zero]
      exact ih fun c hc => h c (by simp [hc])

theorem takeWhile_append_all (p : Char → Bool) (xs ys : List Char)
    (h : ∀ c ∈ xs, p c = true) :
    (xs ++ ys).takeWhile p = xs ++ ys.takeWhile p := by
  induction xs with
  | nil => simp
  | cons c t ih =>
      have hc : p c = true := h c (by simp)
      simp only [List.cons_append, List.takeWhile_cons_of_pos hc]
      rw [ih fun c hc => h c (by simp [hc])]

theorem dropWhile_append_all (p : Char → Bool) (xs ys : List Char)
    (h : ∀ c ∈ xs, p c = true) :
    (xs ++ ys).dropWhile p = ys.dropWhile p := by
  induction xs with
  | nil => simp
  | cons c t ih =>
      have hc : p c = true := h c (by simp)
      simp only [List.cons_append, List.dropWhile_cons_of_pos hc]
      exact ih fun c hc => h c (by simp [hc])

theorem takeWhile_all (p : Char → Bool) (xs : List Char)
    (h : ∀ c ∈ xs, p c = true) : xs.takeWhile p = xs := by
  simpa using takeWhile_append_all p xs [] h

theorem parseBigInt_digits (l : List Char) (hne : l ≠ [])
    (h : l.all Char.isDigit = true) :
    parseBigInt (String.mk l) = some ((digitsVal l : Nat) : Int) := by
  unfold parseBigInt
  match l, hne with
  | c :: rest, _ =>
    have hc : c.isDigit = true := by
      have hx := List.all_eq_true.mp h c (by simp)
      simpa using hx
    have hcm : c ≠ '-' := by
      intro hEq; rw [hEq] at hc; exact absurd hc (by decide)
    have hcp : c ≠ '+' := by
      intro hEq; rw [hEq] at hc; exact absurd hc (by decide)
    simp [hcm, hcp, h]

theorem digit_ne_dot {c : Char} (h : c.isDigit = true) : c ≠ '.' := by
  intro hEq; rw [hEq] at h; exact absurd h (by decide)

theorem digit_ne_dollar {c : Char} (h : c.isDigit = true) : c ≠ '$' := by
  intro hEq; rw [hEq] at h; exact absurd h (by decide)

theorem priceStrip_eq (p : String) (dollar hasFrac : Bool)
    (intChars fracChars : List Char)
    (hp : p.data = (if dollar then ['$'] else []) ++ intChars ++
      (if hasFrac then '.' :: fracChars else []))
    (hi : ∀ c ∈ intChars, c.isDigit = true) :
    priceStrip p = intChars ++ (if hasFrac then '.' :: fracChars else []) := by
  unfold priceStrip
  cases dollar with
  | true =>
      have hsw : startsWithDollar p = true := by
        unfold startsWithDollar
        rw [hp]; rfl
      simp only [hsw, if_true, String.data_drop, hp]
      rfl
  | false =>
      have hpd : p.data = intChars ++ (if hasFrac then '.' :: fracChars else []) := by
        simpa using hp
      have hsw : startsWithDollar p = false := by
        unfold startsWithDollar
        rw [hpd]
        cases intChars with
        | nil =>
            cases hasFrac with
            | true => simp
            | false => simp
        | cons c t =>
            have hc : c ≠ '$' := digit_ne_dollar (hi c (by simp))
            simp [hc]
      simp only [hsw, if_false]
      exact hpd

theorem priceIntPart_frac (intChars fracChars : List Char)
    (hi : ∀ c ∈ intChars, c.isDigit = true) :
    priceIntPart (intChars ++ '.' :: fracChars) = intChars := by
  unfold priceIntPart
  have hkeep : ∀ c ∈ intChars, (fun c => decide (c ≠ '.')) c = true :=
    fun c hc => decide_eq_true (digit_ne_dot (hi c hc))
  rw [takeWhile_append_all _ _ _ hkeep]
  simp

theorem priceIntPart_nofrac (intChars : List Char)
    (hi : ∀ c ∈ intChars, c.isDigit = true) :
    priceIntPart intChars = intChars :=
  takeWhile_all _ _ (fun c hc => decide_eq_true (digit_ne_dot (hi c hc)))

theorem priceDecPart_frac (intChars fracChars : List Char)
    (hi : ∀ c ∈ intChars, c.isDigit = true)
    (hf : ∀ c ∈ fracChars, c.isDigit = true) :
    priceDecPart (intChars ++ '.' :: fracChars) = fracChars := by
  unfold priceDecPart
  have hkeepI : ∀ c ∈ intChars, (fun c => decide (c ≠ '.')) c = true :=
    fun c hc => decide_eq_true (digit_ne_dot (hi c hc))
  have hkeepF : ∀ c ∈ fracChars, (fun c => decide (c ≠ '.')) c = true :=
    fun c hc => decide_eq_true (digit_ne_dot (hf c hc))
  rw [dropWhile_append_all _ _ _ hkeepI]
  rw [List.dropWhile_cons_of_neg (by simp)]
  simp only [List.drop_succ_cons, List.drop_zero]
  exact takeWhile_all _ _ hkeepF

theorem priceDecPart_nofrac (intChars : List Char)
    (hi : ∀ c ∈ intChars, c.isDigit = true) :
    priceDecPart intChars = [] := by
  unfold priceDecPart
  have hkeepI : ∀ c ∈ intChars, (fun c => decide (c ≠ '.')) c = true :=
    fun c hc => decide_eq_true (digit_ne_dot (hi c hc))
  rw [List.dropWhile_eq_nil_iff.mpr hkeepI]
  simp

theorem pricePad_eq (fracChars : List Char) (d : Nat) :
    pricePad fracChars d
      = fracChars.take d ++ List.replicate (d - fracChars.length) '0' := by
  unfold pricePad
  rw [List.take_append_eq_append_take, List.take_replicate]
  congr 1
  congr 1
  omega

theorem pricePad_length (fracChars : List Char) (d : Nat) :
    (pricePad fracChars d).length = d := by
  rw [pricePad_eq]
  simp only [List.length_append, List.length_take, List.length_replicate]
  omega

theorem digitsVal_pricePad (fracChars : List Char) (d : Nat) :
    digitsVal (pricePad fracChars d)
      = digitsVal (fracChars.take d) * 10 ^ (d - fracChars.length) := by
  rw [pricePad_eq, digitsVal_append, digitsVal_replicate_zero, List.length_replicate]
  simp

/-- Core evaluation: on a price string made of an optional dollar sign,
digit characters intChars, and an optional dot followed by digit
characters fracChars, priceStringToTokenAmount returns exactly
priceTokenValue — pure string/integer arithmetic, no rounding. -/
theorem priceStringToTokenAmount_eval
    (p : String) (d : Nat) (dollar hasFrac : Bool) (intChars fracChars : List Char)
    (hp : p.data = (if dollar then ['$'] else []) ++ intChars ++
      (if hasFrac then '.' :: fracChars else []))
    (hi : intChars.all Char.isDigit = true)
    (hf : fracChars.all Char.isDigit = true)
    (hnf : hasFrac = false → fracChars = []) :
    priceStringToTokenAmount p d = some ((priceTokenValue intChars fracChars d : Nat) : Int) := by
  have hiMem : ∀ c ∈ intChars, c.isDigit = true := fun c hc => List.all_eq_true.mp hi c hc
  have hfMem : ∀ c ∈ fracChars, c.isDigit = true := fun c hc => List.all_eq_true.mp hf c hc
  have hexp : priceStringToTokenAmount p d
      = parseBigInt (String.mk (priceTokenStr (priceIntPart (priceStrip p))
          (pricePad (priceDecPart (priceStrip p)) d))) := rfl
  have hps := priceStrip_eq p dollar hasFrac intChars fracChars hp hiMem
  have hip : priceIntPart (priceStrip p) = intChars := by
    rw [hps]
    cases hasFrac with
    | true => simpa using priceIntPart_frac intChars fracChars hiMem
    | false => simpa using priceIntPart_nofrac intChars hiMem
  have hdp : priceDecPart (priceStrip p) = fracChars := by
    rw [hps]
    cases hasFrac with
    | true => simpa using priceDecPart_frac intChars fracChars hiMem hfMem
    | false =>
        have h0 := hnf rfl
        subst h0
        simpa using priceDecPart_nofrac intChars hiMem
  rw [hexp, hip, hdp]
  -- the concatenated digit string and its value
  have hAllPad : ∀ c ∈ pricePad fracChars d, c.isDigit = true := by
    intro c hc
    rw [pricePad_eq] at hc
    rcases List.mem_append.mp hc with hc | hc
    · exact hfMem c (List.take_sublist d fracChars |>.mem hc)
    · rw [List.eq_of_mem_replicate hc]; decide
  have hAllComb : ∀ c ∈ intChars ++ pricePad fracChars d, c.isDigit = true := by
    intro c hc
    rcases List.mem_append.mp hc with hc | hc
    · exact hiMem c hc
    · exact hAllPad c hc
  have hComb : digitsVal (intChars ++ pricePad fracChars d)
      = priceTokenValue intChars fracChars d := by
    rw [digitsVal_append, pricePad_length, digitsVal_pricePad]
    rfl
  unfold priceTokenStr
  by_cases hz : ((intChars ++ pricePad fracChars d).dropWhile (fun c => c = '0')).isEmpty
  · -- every character is a zero: the token string collapses to "0"
    have hzl : (intChars ++ pricePad fracChars d).dropWhile (fun c => decide (c = '0')) = [] :=
      List.isEmpty_iff.mp hz
    have hall0 : ∀ c ∈ intChars ++ pricePad fracChars d, c = '0' := by
      intro c hc
      have := List.dropWhile_eq_nil_iff.mp hzl c hc
      simpa using this
    have hv : digitsVal (intChars ++ pricePad fracChars d) = 0 :=
      digitsVal_all_zero _ hall0
    rw [← hComb, hv]
    simp only [priceTokenStr, hz, if_true]
    decide
  · have hne : (intChars ++ pricePad fracChars d).dropWhile (fun c => decide (c = '0')) ≠ [] := by
      intro hEq
      exact hz (List.isEmpty_iff.mpr hEq)
    have hsub : ∀ c ∈ (intChars ++ pricePad fracChars d).dropWhile (fun c => decide (c = '0')),
        c.isDigit = true := by
      intro c hc
      exact hAllComb c (List.dropWhile_sublist _ |>.mem hc)
    simp only [hz, Bool.false_eq_true, if_false]
    rw [parseBigInt_digits _ hne (List.all_eq_true.mpr hsub)]
    rw [digitsVal_dropWhile_zero, hComb]

/-- C3: Exact price conversion (round-trip law).  For every price string p
consisting of an optional leading dollar sign, a decimal-digit integer part,
and an optional fractional part, priceStringToTokenAmount(p, d) equals the
exact rational value of p multiplied by 10^d whenever the fractional part
has at most d digits (so dividing the result by 10^d recovers the input
value), and for an arbitrary number of decimals d2 the result is the exact
big-integer value with fractional digits beyond d2 truncated: no
floating-point rounding occurs anywhere. -/
theorem claim_c3_price_exact_roundtrip
    (p : String) (d : Nat) (dollar hasFrac : Bool) (intChars fracChars : List Char)
    (hp : p.data = (if dollar then ['$'] else []) ++ intChars ++
      (if hasFrac then '.' :: fracChars else []))
    (hi : intChars.all Char.isDigit = true)
    (hf : fracChars.all Char.isDigit = true)
    (hnf : hasFrac = false → fracChars = [])
    (hlen : fracChars.length ≤ d) :
    priceStringToTokenAmount p d
        = some ((digitsVal intChars * 10 ^ d
            + digitsVal fracChars * 10 ^ (d - fracChars.length) : Nat) : Int)
      ∧ ((digitsVal intChars * 10 ^ d
            + digitsVal fracChars * 10 ^ (d - fracChars.length) : Nat) : ℚ)
          = ((digitsVal intChars : ℚ) + (digitsVal fracChars : ℚ) / 10 ^ fracChars.length)
              * 10 ^ d
      ∧ ((digitsVal intChars * 10 ^ d
            + digitsVal fracChars * 10 ^ (d - fracChars.length) : Nat) : ℚ) / 10 ^ d
          = (digitsVal intChars : ℚ) + (digitsVal fracChars : ℚ) / 10 ^ fracChars.length
      ∧ (∀ d2 : Nat, priceStringToTokenAmount p d2
          = some ((priceTokenValue intChars fracChars d2 : Nat) : Int)) := by
  have htake : fracChars.take d = fracChars := List.take_of_length_le hlen
  have h10 : ((10 : ℚ)) ^ fracChars.length ≠ 0 := pow_ne_zero _ (by norm_num)
  have h10d : ((10 : ℚ)) ^ d ≠ 0 := pow_ne_zero _ (by norm_num)
  have hsplit : fracChars.length + (d - fracChars.length) = d := by omega
  have hq : ((digitsVal intChars * 10 ^ d
        + digitsVal fracChars * 10 ^ (d - fracChars.length) : Nat) : ℚ)
      = ((digitsVal intChars : ℚ) + (digitsVal fracChars : ℚ) / 10 ^ fracChars.length)
          * 10 ^ d := by
    push_cast
    rw [← hsplit, pow_add]
    field_simp
    ring
  refine ⟨?_, hq, ?_, ?_⟩
  · have h := priceStringToTokenAmount_eval p d dollar hasFrac intChars fracChars hp hi hf hnf
    rw [h]
    unfold priceTokenValue
    rw [htake]
  · rw [hq]
    field_simp
    ring
  · intro d2
    exact priceStringToTokenAmount_eval p d2 dollar hasFrac intChars fracChars hp hi hf hnf

/-- Witness for C3 at the concrete price "$0.001" with 18 decimals:
the conversion yields 10^15 base units and dividing by 10^18 recovers
the value 0.001. -/
theorem claim_c3_price_exact_roundtrip_witness :
    priceStringToTokenAmount ("$0.001") 18
        = some ((digitsVal ['0'] * 10 ^ 18
            + digitsVal ['0', '0', '1'] * 10 ^ (18 - (['0', '0', '1'] : List Char).length) : Nat) : Int)
      ∧ ((digitsVal ['0'] * 10 ^ 18
            + digitsVal ['0', '0', '1'] * 10 ^ (18 - (['0', '0', '1'] : List Char).length) : Nat) : ℚ) / 10 ^ 18
          = (digitsVal ['0'] : ℚ)
              + (digitsVal ['0', '0', '1'] : ℚ) / 10 ^ (['0', '0', '1'] : List Char).length := by
  have h := claim_c3_price_exact_roundtrip ("$0.001") 18 true true ['0'] ['0', '0', '1']
    (by decide) (by decide) (by decide) (by intro h; cases h) (by decide)
  exact ⟨h.1, h.2.2.1⟩

theorem transfersOf_eq_nil_of_usdm_empty {u : String} {logs : List EthLog}
    (h : usdmLogsOf u logs = []) : transfersOf u logs = [] := by
  unfold transfersOf
  rw [h]
  rfl

theorem total_eq_zero_of_transfers_nil {u r : String} {logs : List EthLog}
    (h : transfersOf u logs = []) : totalToRecipient u logs r = 0 := by
  unfold totalToRecipient recipientTransfers
  rw [h]
  rfl

theorem transfers_ne_nil_of_total_ne_zero {u r : String} {logs : List EthLog}
    (h : totalToRecipient u logs r ≠ 0) : transfersOf u logs ≠ [] :=
  fun hnil => h (total_eq_zero_of_transfers_nil hnil)

theorem usdm_ne_nil_of_total_ne_zero {u r : String} {logs : List EthLog}
    (h : totalToRecipient u logs r ≠ 0) : usdmLogsOf u logs ≠ [] :=
  fun hnil => transfers_ne_nil_of_total_ne_zero h (transfersOf_eq_nil_of_usdm_empty hnil)

/-- Validity of verifyTransferLogs is decided exactly by the matched sum:
nonzero and at least the expected amount. -/
theorem verifyTransferLogs_valid_iff (u : String) (logs : List EthLog)
    (A : Nat) (r : String) :
    (verifyTransferLogs u logs A r).valid = true
      ↔ totalToRecipient u logs r ≠ 0 ∧ A ≤ totalToRecipient u logs r := by
  unfold verifyTransferLogs
  by_cases h1 : (usdmLogsOf u logs).isEmpty
  · have hS : totalToRecipient u logs r = 0 :=
      total_eq_zero_of_transfers_nil
        (transfersOf_eq_nil_of_usdm_empty (List.isEmpty_iff.mp h1))
    simp [h1, hS]
  · by_cases h2 : (transfersOf u logs).isEmpty
    · have hS : totalToRecipient u logs r = 0 :=
        total_eq_zero_of_transfers_nil (List.isEmpty_iff.mp h2)
      simp [h1, h2, hS]
    · by_cases h3 : totalToRecipient u logs r = 0
      · simp [h1, h2, h3]
      · by_cases h4 : totalToRecipient u logs r < A
        · simp [h1, h2, h3, h4]
        · simp [h1, h2, h3, h4]
          omega

theorem bool_eq_of_iff {a b : Bool} (h : a = true ↔ b = true) : a = b := by
  cases a <;> cases b <;> simp_all

theorem usdmLogsOf_cons_pos {u : String} {l : EthLog} (logs : List EthLog)
    (h : lowerStr l.address = lowerStr u) :
    usdmLogsOf u (l :: logs) = l :: usdmLogsOf u logs := by
  simp [usdmLogsOf, List.filter_cons, h]

theorem usdmLogsOf_cons_neg {u : String} {l : EthLog} (logs : List EthLog)
    (h : lowerStr l.address ≠ lowerStr u) :
    usdmLogsOf u (l :: logs) = usdmLogsOf u logs := by
  simp [usdmLogsOf, List.filter_cons, h]

theorem verifyTransferLogs_cons_other_contract (u : String) (logs : List EthLog)
    (A : Nat) (r : String) (l : EthLog) (h : lowerStr l.address ≠ lowerStr u) :
    verifyTransferLogs u (l :: logs) A r = verifyTransferLogs u logs A r := by
  have e1 : usdmLogsOf u (l :: logs) = usdmLogsOf u logs := usdmLogsOf_cons_neg logs h
  have e2 : transfersOf u (l :: logs) = transfersOf u logs := by
    unfold transfersOf; rw [e1]
  have e3 : recipientTransfers u (l :: logs) r = recipientTransfers u logs r := by
    unfold recipientTransfers; rw [e2]
  have e4 : totalToRecipient u (l :: logs) r = totalToRecipient u logs r := by
    unfold totalToRecipient; rw [e3]
  unfold verifyTransferLogs
  rw [e1, e2, e3, e4]

theorem total_cons_other_recipient (u : String) (logs : List EthLog)
    (r : String) (l : EthLog)
    (h : ∀ t, decodeTransfer l = some t → lowerStr t.toAddr ≠ lowerStr r) :
    totalToRecipient u (l :: logs) r = totalToRecipient u logs r := by
  by_cases haddr : lowerStr l.address = lowerStr u
  · have e1 : usdmLogsOf u (l :: logs) = l :: usdmLogsOf u logs := usdmLogsOf_cons_pos logs haddr
    unfold totalToRecipient recipientTransfers transfersOf
    rw [e1, List.filterMap_cons]
    cases hdec : decodeTransfer l with
    | none => rfl
    | some t =>
        have hne := h t hdec
        rw [List.filter_cons_of_neg (by simp [hne])]
  · have e1 : usdmLogsOf u (l :: logs) = usdmLogsOf u logs := usdmLogsOf_cons_neg logs haddr
    unfold totalToRecipient recipientTransfers transfersOf
    rw [e1]

theorem total_cons_matching (u : String) (logs : List EthLog) (r : String)
    (l : EthLog) (t : TransferEvent) (hdec : decodeTransfer l = some t)
    (haddr : lowerStr l.address = lowerStr u) (hto : lowerStr t.toAddr = lowerStr r) :
    totalToRecipient u (l :: logs) r = t.value + totalToRecipient u logs r := by
  have e1 : usdmLogsOf u (l :: logs) = l :: usdmLogsOf u logs := usdmLogsOf_cons_pos logs haddr
  unfold totalToRecipient recipientTransfers transfersOf
  rw [e1, List.filterMap_cons, hdec]
  rw [List.filter_cons_of_pos (by simp [hto])]
  simp

/-- C2 (amended): verifyTransferLogs accepts iff the matched sum is nonzero
and at least the expected amount; a sum equal to the (positive) expected
amount or above it is accepted; a positive but insufficient sum is rejected
with the insufficient-amount error; a zero sum is rejected with the
wrong-recipient error provided at least one Transfer event parses from the
stablecoin contract (with no parsed stablecoin transfer the rejection is
the no-transfer-found / wrong-token error instead); logs from other
contracts are ignored entirely; transfers to other recipients never change
the verdict; and matching transfers are summed (split payments). -/
theorem claim_c2_transfer_sum (u : String) (logs : List EthLog) (A : Nat) (r : String) :
    ((verifyTransferLogs u logs A r).valid = true
        ↔ totalToRecipient u logs r ≠ 0 ∧ A ≤ totalToRecipient u logs r)
    ∧ (totalToRecipient u logs r = A → 0 < A → (verifyTransferLogs u logs A r).valid = true)
    ∧ (0 < totalToRecipient u logs r → totalToRecipient u logs r < A →
        (verifyTransferLogs u logs A r).error = some ("Insufficient payment amount"))
    ∧ (totalToRecipient u logs r = 0 → transfersOf u logs ≠ [] →
        (verifyTransferLogs u logs A r).error = some ("No USDm transfer to expected recipient"))
    ∧ (∀ l : EthLog, lowerStr l.address ≠ lowerStr u →
        verifyTransferLogs u (l :: logs) A r = verifyTransferLogs u logs A r)
    ∧ (∀ l : EthLog, (∀ t, decodeTransfer l = some t → lowerStr t.toAddr ≠ lowerStr r) →
        (verifyTransferLogs u (l :: logs) A r).valid = (verifyTransferLogs u logs A r).valid)
    ∧ (∀ (l : EthLog) (t : TransferEvent), decodeTransfer l = some t →
        lowerStr l.address = lowerStr u → lowerStr t.toAddr = lowerStr r →
        totalToRecipient u (l :: logs) r = t.value + totalToRecipient u logs r) := by
  refine ⟨verifyTransferLogs_valid_iff u logs A r, ?_, ?_, ?_, ?_, ?_, ?_⟩
  · intro hS hA
    exact (verifyTransferLogs_valid_iff u logs A r).mpr (by omega)
  · intro hpos hlt
    have hS : totalToRecipient u logs r ≠ 0 := by omega
    have hu : (usdmLogsOf u logs).isEmpty = false := by
      rw [Bool.eq_false_iff]
      intro hx
      exact usdm_ne_nil_of_total_ne_zero hS (List.isEmpty_iff.mp hx)
    have ht : (transfersOf u logs).isEmpty = false := by
      rw [Bool.eq_false_iff]
      intro hx
      exact transfers_ne_nil_of_total_ne_zero hS (List.isEmpty_iff.mp hx)
    unfold verifyTransferLogs
    simp [hu, ht, hS, hlt]
  · intro hS htr
    have hu : (usdmLogsOf u logs).isEmpty = false := by
      rw [Bool.eq_false_iff]
      intro hx
      exact htr (transfersOf_eq_nil_of_usdm_empty (List.isEmpty_iff.mp hx))
    have ht : (transfersOf u logs).isEmpty = false := by
      rw [Bool.eq_false_iff]
      intro hx
      exact htr (List.isEmpty_iff.mp hx)
    unfold verifyTransferLogs
    simp [hu, ht, hS]
  · exact fun l h => verifyTransferLogs_cons_other_contract u logs A r l h
  · intro l h
    apply bool_eq_of_iff
    rw [verifyTransferLogs_valid_iff, verifyTransferLogs_valid_iff,
        total_cons_other_recipient u logs r l h]
  · exact fun l t hdec haddr hto => total_cons_matching u logs r l t hdec haddr hto

/-- C2 counterexample.  With expected amount A = 1 and a single zero-value
Transfer to the recipient, the matched sum is A - 1 = 0, yet the rejection
reason is the wrong-recipient error, not the insufficient-amount error the
claim requires for a sum of A - 1.  And with an empty log list the sum is
zero, yet the rejection is the no-transfer-found error, not the
wrong-recipient error the claim requires for every zero sum. -/
theorem claim_c2_counterexample :
    totalToRecipient megaethUsdmAddress [sampleTransferLog 0] sampleRecipient = 1 - 1
    ∧ (verifyTransferLogs megaethUsdmAddress [sampleTransferLog 0] 1 sampleRecipient).error
        = some ("No USDm transfer to expected recipient")
    ∧ (verifyTransferLogs megaethUsdmAddress [sampleTransferLog 0] 1 sampleRecipient).error
        ≠ some ("Insufficient payment amount")
    ∧ totalToRecipient megaethUsdmAddress ([] : List EthLog) sampleRecipient = 0
    ∧ (verifyTransferLogs megaethUsdmAddress ([] : List EthLog) 1 sampleRecipient).error
        = some ("No USDm transfer found in transaction")
    ∧ (verifyTransferLogs megaethUsdmAddress ([] : List EthLog) 1 sampleRecipient).error
        ≠ some ("No USDm transfer to expected recipient") := by
  decide

/-- Witness for C2 at concrete inputs: a split payment of 6x10^14 plus
4x10^14 base units sums to exactly the expected 10^15 and is accepted,
and a payment of 10^15 - 1 is rejected as insufficient. -/
theorem claim_c2_transfer_sum_witness :
    (verifyTransferLogs megaethUsdmAddress
        [sampleTransferLog 600000000000000, sampleTransferLog 400000000000000]
        1000000000000000 sampleRecipient).valid = true
    ∧ (verifyTransferLogs megaethUsdmAddress [sampleTransferLog 999999999999999]
        1000000000000000 sampleRecipient).error = some ("Insufficient payment amount") := by
  constructor
  · exact (claim_c2_transfer_sum megaethUsdmAddress
      [sampleTransferLog 600000000000000, sampleTransferLog 400000000000000]
      1000000000000000 sampleRecipient).1.mpr (by decide)
  · exact (claim_c2_transfer_sum megaethUsdmAddress [sampleTransferLog 999999999999999]
      1000000000000000 sampleRecipient).2.2.1 (by decide) (by decide)

theorem lower_topicToAddress {t t' : String} (h : lowerStr t = lowerStr t') :
    lowerStr (topicToAddress t) = lowerStr (topicToAddress t') := by
  have hdata : t.data.map jsLowerChar = t'.data.map jsLowerChar := by
    have hc := congrArg String.data h
    simpa [lowerStr] using hc
  have hlen : t.data.length = t'.data.length := by
    have hc := congrArg List.length hdata
    simpa using hc
  unfold lowerStr topicToAddress
  simp only [List.map_cons]
  rw [show jsLowerChar '0' = '0' from rfl, show jsLowerChar 'x' = 'x' from rfl]
  rw [List.map_drop, List.map_drop, hdata, hlen]

theorem forall2_filter {α : Type} {R : α → α → Prop} {p q : α → Bool}
    (hpq : ∀ a b, R a b → p a = q b)
    {l l' : List α} (h : List.Forall₂ R l l') :
    List.Forall₂ R (l.filter p) (l'.filter q) := by
  induction h with
  | nil => constructor
  | cons hr ht ih =>
      rename_i a b as bs
      by_cases hp : p a = true
      · rw [List.filter_cons_of_pos hp, List.filter_cons_of_pos (by rw [← hpq a b hr]; exact hp)]
        exact List.Forall₂.cons hr ih
      · rw [List.filter_cons_of_neg hp,
            List.filter_cons_of_neg (by rw [← hpq a b hr]; exact hp)]
        exact ih

theorem forall2_filterMap {α β : Type} {R : α → α → Prop} {S : β → β → Prop}
    {f g : α → Option β}
    (hfg : ∀ a b, R a b →
      (f a = none ∧ g b = none) ∨ ∃ x y, f a = some x ∧ g b = some y ∧ S x y)
    {l l' : List α} (h : List.Forall₂ R l l') :
    List.Forall₂ S (l.filterMap f) (l'.filterMap g) := by
  induction h with
  | nil => constructor
  | cons hr ht ih =>
      rename_i a b as bs
      rcases hfg a b hr with ⟨hfa, hgb⟩ | ⟨x, y, hfa, hgb, hs⟩
      · simp only [List.filterMap_cons, hfa, hgb]
        exact ih
      · simp only [List.filterMap_cons, hfa, hgb]
        exact List.Forall₂.cons hs ih

theorem forall2_isEmpty {α β : Type} {R : α → β → Prop} {l : List α} {l' : List β}
    (h : List.Forall₂ R l l') : l.isEmpty = l'.isEmpty := by
  cases h <;> rfl

theorem forall2_sum_value {l l' : List TransferEvent}
    (h : List.Forall₂ transferCaseEq l l') :
    (l.map TransferEvent.value).sum = (l'.map TransferEvent.value).sum := by
  induction h with
  | nil => rfl
  | cons hr ht ih => simp [hr.2, ih]

theorem decodeTransfer_caseEq {l l' : EthLog} (h : logCaseEq l l') :
    (decodeTransfer l = none ∧ decodeTransfer l' = none)
    ∨ ∃ t t', decodeTransfer l = some t ∧ decodeTransfer l' = some t'
        ∧ transferCaseEq t t' := by
  obtain ⟨a1, ts1, d1⟩ := l
  obtain ⟨a2, ts2, d2⟩ := l'
  obtain ⟨haddr, hhead, htop, hdata⟩ := h
  simp only at haddr hhead htop hdata
  cases htop with
  | nil => left; exact ⟨rfl, rfl⟩
  | cons h0 htop1 =>
      rename_i t0 t0p rest0 rest0p
      cases htop1 with
      | nil => left; exact ⟨rfl, rfl⟩
      | cons h1 htop2 =>
          rename_i t1 t1p rest1 rest1p
          cases htop2 with
          | nil => left; exact ⟨rfl, rfl⟩
          | cons h2 htop3 =>
              rename_i t2 t2p rest2 rest2p
              cases htop3 with
              | nil =>
                  have ht0 : t0 = t0p := by
                    simpa using hhead
                  subst ht0
                  subst hdata
                  by_cases hsig : t0 = transferSig
                  · right
                    have hd1 : decodeTransfer { address := a1, topics := [t0, t1, t2], data := d1 }
                        = some ⟨topicToAddress t1, topicToAddress t2, d1⟩ := by
                      simp [decodeTransfer, hsig]
                    have hd2 : decodeTransfer { address := a2, topics := [t0, t1p, t2p], data := d1 }
                        = some ⟨topicToAddress t1p, topicToAddress t2p, d1⟩ := by
                      simp [decodeTransfer, hsig]
                    exact ⟨_, _, hd1, hd2, lower_topicToAddress h2, rfl⟩
                  · left
                    constructor
                    · simp [decodeTransfer, hsig]
                    · simp [decodeTransfer, hsig]
              | cons h3 htop4 => left; exact ⟨rfl, rfl⟩

theorem transfersOf_caseEq {u u' : String} (hu : lowerStr u = lowerStr u')
    {logs logs' : List EthLog} (h : List.Forall₂ logCaseEq logs logs') :
    List.Forall₂ transferCaseEq (transfersOf u logs) (transfersOf u' logs') := by
  unfold transfersOf usdmLogsOf
  apply forall2_filterMap (fun a b hr => decodeTransfer_caseEq hr)
  apply forall2_filter _ h
  intro a b hr
  have haddr := hr.1
  by_cases hx : lowerStr a.address = lowerStr u
  · simp [hx, haddr ▸ (hu ▸ hx)]
  · have hx2 : ¬ lowerStr b.address = lowerStr u' := by
      rw [← haddr, ← hu]
      exact hx
    simp [hx, hx2]

theorem usdmLogs_isEmpty_caseEq {u u' : String} (hu : lowerStr u = lowerStr u')
    {logs logs' : List EthLog} (h : List.Forall₂ logCaseEq logs logs') :
    (usdmLogsOf u logs).isEmpty = (usdmLogsOf u' logs').isEmpty := by
  apply forall2_isEmpty
  unfold usdmLogsOf
  apply forall2_filter _ h
  intro a b hr
  have haddr := hr.1
  by_cases hx : lowerStr a.address = lowerStr u
  · simp [hx, haddr ▸ (hu ▸ hx)]
  · have hx2 : ¬ lowerStr b.address = lowerStr u' := by
      rw [← haddr, ← hu]
      exact hx
    simp [hx, hx2]

theorem total_caseEq {u u' r r' : String}
    (hu : lowerStr u = lowerStr u') (hr : lowerStr r = lowerStr r')
    {logs logs' : List EthLog} (h : List.Forall₂ logCaseEq logs logs') :
    totalToRecipient u logs r = totalToRecipient u' logs' r' := by
  apply forall2_sum_value
  unfold recipientTransfers
  apply forall2_filter _ (transfersOf_caseEq hu h)
  intro a b hab
  have hto := hab.1
  by_cases hx : lowerStr a.toAddr = lowerStr r
  · simp [hx, hto ▸ (hr ▸ hx)]
  · have hx2 : ¬ lowerStr b.toAddr = lowerStr r' := by
      rw [← hto, ← hr]
      exact hx
    simp [hx, hx2]

/-- C7: the verdict of verifyTransferLogs — validity and failure reason —
is unchanged when the hexadecimal letter case of the recipient address,
the configured stablecoin contract address, or the addresses carried by
the logs (emitter and the from/to topics) is altered arbitrarily. -/
theorem claim_c7_case_insensitive (u u' r r' : String) (A : Nat)
    (logs logs' : List EthLog)
    (hu : lowerStr u = lowerStr u') (hr : lowerStr r = lowerStr r')
    (hlogs : List.Forall₂ logCaseEq logs logs') :
    (verifyTransferLogs u logs A r).valid = (verifyTransferLogs u' logs' A r').valid
    ∧ (verifyTransferLogs u logs A r).error = (verifyTransferLogs u' logs' A r').error := by
  have e1 : (usdmLogsOf u logs).isEmpty = (usdmLogsOf u' logs').isEmpty :=
    usdmLogs_isEmpty_caseEq hu hlogs
  have e2 : (transfersOf u logs).isEmpty = (transfersOf u' logs').isEmpty :=
    forall2_isEmpty (transfersOf_caseEq hu hlogs)
  have e3 : totalToRecipient u logs r = totalToRecipient u' logs' r' :=
    total_caseEq hu hr hlogs
  unfold verifyTransferLogs
  rw [e1, e2, e3]
  by_cases h1 : (usdmLogsOf u' logs').isEmpty <;>
    by_cases h2 : (transfersOf u' logs').isEmpty <;>
      by_cases h3 : totalToRecipient u' logs' r' = 0 <;>
        by_cases h4 : totalToRecipient u' logs' r' < A <;>
          simp [h1, h2, h3, h4]

/-- Witness for C7: flipping the case of the recipient, the contract
address, and the log addresses leaves the verdict of a concrete
verification unchanged. -/
theorem claim_c7_case_insensitive_witness :
    (verifyTransferLogs megaethUsdmAddress [sampleTransferLog 5] 5 sampleRecipient).valid
        = (verifyTransferLogs (lowerStr megaethUsdmAddress)
            [sampleTransferLogUpper 5] 5 sampleRecipientUpper).valid
    ∧ (verifyTransferLogs megaethUsdmAddress [sampleTransferLog 5] 5 sampleRecipient).error
        = (verifyTransferLogs (lowerStr megaethUsdmAddress)
            [sampleTransferLogUpper 5] 5 sampleRecipientUpper).error := by
  have hlog : logCaseEq (sampleTransferLog 5) (sampleTransferLogUpper 5) := by
    refine ⟨by decide, by decide, ?_, by decide⟩
    refine List.Forall₂.cons (by decide) ?_
    refine List.Forall₂.cons (by decide) ?_
    refine List.Forall₂.cons (by decide) ?_
    exact List.Forall₂.nil
  exact claim_c7_case_insensitive megaethUsdmAddress (lowerStr megaethUsdmAddress)
    sampleRecipient sampleRecipientUpper 5
    [sampleTransferLog 5] [sampleTransferLogUpper 5]
    (by decide) (by decide)
    (List.Forall₂.cons hlog List.Forall₂.nil)

theorem recordTxHash_true_iff (dbOk : Bool) (db : LedgerDb) (h : String) :
    (recordTxHash dbOk db h).2 = true ↔ (dbOk = true ∧ lowerStr h ∉ db.used) := by
  unfold recordTxHash
  by_cases h1 : dbOk = true
  · by_cases h2 : lowerStr h ∈ db.used <;> simp [h1, h2]
  · simp [h1]

theorem recordTxHash_mem_preserved (dbOk : Bool) (db : LedgerDb) (h k : String)
    (hk : k ∈ db.used) : k ∈ (recordTxHash dbOk db h).1.used := by
  unfold recordTxHash
  by_cases h1 : dbOk = true
  · by_cases h2 : lowerStr h ∈ db.used <;> simp [h1, h2, hk]
  · simp [h1, hk]

theorem recordTxHash_true_mem (dbOk : Bool) (db : LedgerDb) (h : String)
    (ht : (recordTxHash dbOk db h).2 = true) :
    lowerStr h ∈ (recordTxHash dbOk db h).1.used := by
  obtain ⟨h1, h2⟩ := (recordTxHash_true_iff dbOk db h).mp ht
  unfold recordTxHash
  simp [h1, h2]

theorem recordTxHash_false_unchanged (dbOk : Bool) (db : LedgerDb) (h : String)
    (hf : (recordTxHash dbOk db h).2 = false) : (recordTxHash dbOk db h).1 = db := by
  unfold recordTxHash at hf ⊢
  by_cases h1 : dbOk = true
  · by_cases h2 : lowerStr h ∈ db.used
    · simp [h1, h2]
    · simp [h1, h2] at hf
  · simp [h1]

theorem successCount_zero_of_mem (k : String) (ops : List RecordOp) :
    ∀ db : LedgerDb, k ∈ db.used → successCount k ops (runRecords db ops).2 = 0 := by
  induction ops with
  | nil => intro db hk; rfl
  | cons op rest ih =>
      intro db hk
      by_cases hr : op.reaches
      · simp only [runRecords, hr, if_true, successCount]
        have hz : ¬ (lowerStr op.txHash = k ∧ (recordTxHash op.dbOk db op.txHash).2 = true) := by
          rintro ⟨hEq, htrue⟩
          obtain ⟨hOk, hnot⟩ := (recordTxHash_true_iff op.dbOk db op.txHash).mp htrue
          rw [hEq] at hnot
          exact hnot hk
        rw [if_neg hz]
        simpa using ih (recordTxHash op.dbOk db op.txHash).1
          (recordTxHash_mem_preserved op.dbOk db op.txHash k hk)
      · simp only [runRecords, hr, if_false, successCount]
        simpa using ih db hk

theorem successCount_le_one (k : String) (ops : List RecordOp) :
    ∀ db : LedgerDb, successCount k ops (runRecords db ops).2 ≤ 1 := by
  induction ops with
  | nil => intro db; simp [successCount, runRecords]
  | cons op rest ih =>
      intro db
      by_cases hr : op.reaches
      · simp only [runRecords, hr, if_true, successCount]
        by_cases hc : lowerStr op.txHash = k ∧ (recordTxHash op.dbOk db op.txHash).2 = true
        · rw [if_pos hc]
          have hmem : k ∈ (recordTxHash op.dbOk db op.txHash).1.used := by
            rw [← hc.1]
            exact recordTxHash_true_mem op.dbOk db op.txHash hc.2
          have hz := successCount_zero_of_mem k rest (recordTxHash op.dbOk db op.txHash).1 hmem
          omega
        · rw [if_neg hc]
          simpa using ih (recordTxHash op.dbOk db op.txHash).1
      · simp only [runRecords, hr, if_false, successCount]
        simpa using ih db

/-- Acceptance requires the atomic insert to report success: a valid
verifier outcome implies its recordTxHash call returned true, and the
resulting ledger state is the one the insert produced. -/
theorem verify_valid_requires_record (u : String) (dbOk : Bool) (db : LedgerDb)
    (proof : PaymentProof) (A : Nat) (r : String) (fetch : Option Receipt)
    (hv : (verifyMegaETHPayment u dbOk db proof A r fetch).result.valid = true) :
    (recordTxHash dbOk db (lowerStr proof.txHash)).2 = true
    ∧ (verifyMegaETHPayment u dbOk db proof A r fetch).db
        = (recordTxHash dbOk db (lowerStr proof.txHash)).1 := by
  unfold verifyMegaETHPayment at hv ⊢
  by_cases h1 : isEthAddressFormat r = true
  · by_cases h2 : isTxHashUsed db (lowerStr proof.txHash) = true
    · simp [h1, h2, invalidResult] at hv
    · cases fetch with
      | none => simp [h1, h2, invalidResult] at hv
      | some receipt =>
          by_cases h3 : receipt.status = "success"
          · by_cases h4 : (verifyTransferLogs u receipt.logs A r).valid = true
            · by_cases h5 : (recordTxHash dbOk db (lowerStr proof.txHash)).2 = true
              · simp [h1, h2, h3, h4, h5]
              · simp [h1, h2, h3, h4, h5, invalidResult] at hv
            · simp only [Bool.not_eq_true] at h4
              simp [h1, h2, h3, h4, invalidResult] at hv
          · simp [h1, h2, h3, invalidResult] at hv
  · simp [h1, invalidResult] at hv

/-- C1: at-most-once acceptance of payment proofs.  (a) In any serialized
execution of concurrent invocations over the shared used_tx_hashes table,
at most one recordTxHash call per proof key returns true.  (b) A verifier
invocation returns a valid result only if its recordTxHash call on the
lowercased hash returned true, adopting the inserted state.  (c)
recordTxHash returns true iff the insert succeeded and the lowercased key
was not yet a member, in which case exactly that key is added.  (d) A
losing recordTxHash call leaves the used-proof set unchanged.  (e) The
race-losing verifier invocation fails with the replay error and leaves
the table unchanged. -/
theorem claim_c1_at_most_once :
    (∀ (db : LedgerDb) (ops : List RecordOp) (k : String),
      successCount k ops (runRecords db ops).2 ≤ 1)
    ∧ (∀ (u : String) (dbOk : Bool) (db : LedgerDb) (proof : PaymentProof)
        (A : Nat) (r : String) (fetch : Option Receipt),
        (verifyMegaETHPayment u dbOk db proof A r fetch).result.valid = true →
          (recordTxHash dbOk db (lowerStr proof.txHash)).2 = true
          ∧ (verifyMegaETHPayment u dbOk db proof A r fetch).db
              = (recordTxHash dbOk db (lowerStr proof.txHash)).1)
    ∧ (∀ (dbOk : Bool) (db : LedgerDb) (h : String),
        ((recordTxHash dbOk db h).2 = true ↔ dbOk = true ∧ lowerStr h ∉ db.used)
        ∧ ((recordTxHash dbOk db h).2 = true →
            (recordTxHash dbOk db h).1.used = lowerStr h :: db.used))
    ∧ (∀ (dbOk : Bool) (db : LedgerDb) (h : String),
        (recordTxHash dbOk db h).2 = false → (recordTxHash dbOk db h).1 = db)
    ∧ (∀ (u : String) (dbOk : Bool) (db : LedgerDb) (proof : PaymentProof)
        (A : Nat) (r : String) (receipt : Receipt),
        isEthAddressFormat r = true →
        isTxHashUsed db (lowerStr proof.txHash) = false →
        receipt.status = "success" →
        (verifyTransferLogs u receipt.logs A r).valid = true →
        (recordTxHash dbOk db (lowerStr proof.txHash)).2 = false →
        verifyMegaETHPayment u dbOk db proof A r (some receipt)
          = ⟨db, invalidResult ("Transaction already used for payment (race)"), true⟩) := by
  refine ⟨fun db ops k => successCount_le_one k ops db,
    verify_valid_requires_record, ?_, recordTxHash_false_unchanged, ?_⟩
  · intro dbOk db h
    refine ⟨recordTxHash_true_iff dbOk db h, ?_⟩
    intro ht
    obtain ⟨h1, h2⟩ := (recordTxHash_true_iff dbOk db h).mp ht
    unfold recordTxHash
    simp [h1, h2]
  · intro u dbOk db proof A r receipt h1 h2 h3 h4 h5
    have hdb : (recordTxHash dbOk db (lowerStr proof.txHash)).1 = db :=
      recordTxHash_false_unchanged dbOk db (lowerStr proof.txHash) h5
    unfold verifyMegaETHPayment
    rw [h2]
    simp [h1, h3, h4, h5, hdb]

/-- Witness for C1 at concrete inputs: a fresh verification succeeds with
its recordTxHash returning true and adopting the inserted state, and with
a failing insert the same invocation loses with the race error. -/
theorem claim_c1_at_most_once_witness :
    ((recordTxHash true ⟨[]⟩ (lowerStr sampleTxHash)).2 = true
      ∧ (verifyMegaETHPayment megaethUsdmAddress true ⟨[]⟩ ⟨sampleTxHash⟩ 5 sampleRecipient
          (some sampleReceipt)).db
        = (recordTxHash true ⟨[]⟩ (lowerStr sampleTxHash)).1)
    ∧ verifyMegaETHPayment megaethUsdmAddress false ⟨[]⟩ ⟨sampleTxHash⟩ 5 sampleRecipient
        (some sampleReceipt)
      = ⟨⟨[]⟩, invalidResult ("Transaction already used for payment (race)"), true⟩ := by
  constructor
  · exact claim_c1_at_most_once.2.1 megaethUsdmAddress true ⟨[]⟩ ⟨sampleTxHash⟩ 5
      sampleRecipient (some sampleReceipt) (by decide)
  · exact claim_c1_at_most_once.2.2.2.2 megaethUsdmAddress false ⟨[]⟩ ⟨sampleTxHash⟩ 5
      sampleRecipient sampleReceipt (by decide) (by decide) (by decide) (by decide) (by decide)

/-- C10: recordTxHash never throws — with a failing INSERT it returns
false and an unchanged table, the same observable as a primary-key
conflict — and consequently a genuinely never-before-used payment whose
ledger write fails is rejected by verifyMegaETHPayment with the
replay-race error instead of a database error, its proof key left
unrecorded. -/
theorem claim_c10_db_error_reported_as_race :
    (∀ (db : LedgerDb) (h : String), recordTxHash false db h = (db, false))
    ∧ (∀ (u : String) (db : LedgerDb) (proof : PaymentProof) (A : Nat) (r : String)
        (receipt : Receipt),
        isEthAddressFormat r = true →
        isTxHashUsed db (lowerStr proof.txHash) = false →
        receipt.status = "success" →
        (verifyTransferLogs u receipt.logs A r).valid = true →
        verifyMegaETHPayment u false db proof A r (some receipt)
          = ⟨db, invalidResult ("Transaction already used for payment (race)"), true⟩) := by
  constructor
  · intro db h
    unfold recordTxHash
    simp
  · intro u db proof A r receipt h1 h2 h3 h4
    unfold verifyMegaETHPayment
    rw [h2]
    simp [h1, h3, h4, recordTxHash]

/-- Witness for C10: a concrete fresh payment with a valid on-chain
transfer is rejected with the replay-race error when the database write
fails, and the used-proof set stays empty. -/
theorem claim_c10_db_error_reported_as_race_witness :
    recordTxHash false ⟨[]⟩ sampleTxHash = (⟨[]⟩, false)
    ∧ verifyMegaETHPayment megaethUsdmAddress false ⟨[]⟩ ⟨sampleTxHash⟩ 4 sampleRecipient
        (some sampleReceipt)
      = ⟨⟨[]⟩, invalidResult ("Transaction already used for payment (race)"), true⟩ := by
  constructor
  · exact claim_c10_db_error_reported_as_race.1 ⟨[]⟩ sampleTxHash
  · exact claim_c10_db_error_reported_as_race.2 megaethUsdmAddress ⟨[]⟩ ⟨sampleTxHash⟩ 4
      sampleRecipient sampleReceipt (by decide) (by decide) (by decide) (by decide)

/-- C6 counterexample: the hash 0xABC fails the spec's 64-hex format, yet
a verification for it with a well-formed recipient and an empty ledger
reaches the RPC fetch (rpcCalled) and is rejected by the lookup with the
not-found error — not with a malformed-proof error before any RPC call. -/
theorem claim_c6_counterexample :
    specTxHashFormat shortTxHash = false
    ∧ startsWith0x shortTxHash = true
    ∧ isEthAddressFormat sampleRecipient = true
    ∧ (verifyMegaETHPayment megaethUsdmAddress true ⟨[]⟩ ⟨shortTxHash⟩ 5 sampleRecipient
        none).rpcCalled = true
    ∧ (verifyMegaETHPayment megaethUsdmAddress true ⟨[]⟩ ⟨shortTxHash⟩ 5 sampleRecipient
        none).result.error = some ("Transaction not found on MegaETH")
    ∧ (verifyMegaETHPayment megaethUsdmAddress true ⟨[]⟩ ⟨shortTxHash⟩ 5 sampleRecipient
        none).result.error ≠ some ("Invalid recipient address format") := by
  decide

theorem sextets_roundtrip (l : List Nat) (h : ∀ b ∈ l, b < 256) :
    sextetsToBytes (bytesToSextets l) = l := by
  induction l using bytesToSextets.induct with
  | case1 => rfl
  | case2 a =>
      have ha : a < 256 := h a (by simp)
      simp only [bytesToSextets, sextetsToBytes, List.cons.injEq, and_true]
      omega
  | case3 a b =>
      have ha : a < 256 := h a (by simp)
      have hb : b < 256 := h b (by simp)
      simp only [bytesToSextets, sextetsToBytes, List.cons.injEq, and_true]
      omega
  | case4 a b c rest ih =>
      have ha : a < 256 := h a (by simp)
      have hb : b < 256 := h b (by simp)
      have hc : c < 256 := h c (by simp)
      have hrest : ∀ x ∈ rest, x < 256 := fun x hx => h x (by simp [hx])
      simp only [bytesToSextets, sextetsToBytes, List.cons.injEq]
      refine ⟨by omega, by omega, by omega, ih hrest⟩

theorem charToSextet_sextetToChar :
    ∀ n : Fin 64, charToSextet (sextetToChar n.val) = some n.val := by
  decide

theorem bytesToSextets_lt (l : List Nat) (h : ∀ b ∈ l, b < 256) :
    ∀ s ∈ bytesToSextets l, s < 64 := by
  induction l using bytesToSextets.induct with
  | case1 => intro s hs; cases hs
  | case2 a =>
      have ha : a < 256 := h a (by simp)
      intro s hs
      simp [bytesToSextets] at hs
      omega
  | case3 a b =>
      have ha : a < 256 := h a (by simp)
      have hb : b < 256 := h b (by simp)
      intro s hs
      simp [bytesToSextets] at hs
      omega
  | case4 a b c rest ih =>
      have ha : a < 256 := h a (by simp)
      have hb : b < 256 := h b (by simp)
      have hc : c < 256 := h c (by simp)
      have hrest : ∀ x ∈ rest, x < 256 := fun x hx => h x (by simp [hx])
      intro s hs
      simp only [bytesToSextets, List.mem_cons] at hs
      rcases hs with hs | hs | hs | hs | hs
      · omega
      · omega
      · omega
      · omega
      · exact ih hrest s hs

theorem filterMap_sextets (l : List Nat) (h : ∀ s ∈ l, s < 64) :
    (l.map sextetToChar).filterMap charToSextet = l := by
  induction l with
  | nil => rfl
  | cons s t ih =>
      have hs : s < 64 := h s (by simp)
      have hc : charToSextet (sextetToChar s) = some s :=
        charToSextet_sextetToChar ⟨s, hs⟩
      simp only [List.map_cons, List.filterMap_cons, hc]
      rw [ih fun x hx => h x (by simp [hx])]

theorem b64PadChars_decode (n : Nat) : (b64PadChars n).filterMap charToSextet = [] := by
  unfold b64PadChars
  by_cases h1 : n % 3 = 1
  · simp [h1]
    decide
  · by_cases h2 : n % 3 = 2
    · simp [h1, h2]
      decide
    · simp [h1, h2]

/-- The strict base64 encoding of a byte list decodes back to exactly
those bytes through the forgiving decoder. -/
theorem b64_decode_encode (bytes : List Nat) (h : ∀ b ∈ bytes, b < 256) :
    b64DecodeChars (b64EncodeBytes bytes) = bytes := by
  unfold b64DecodeChars b64EncodeBytes
  rw [List.filterMap_append, filterMap_sextets _ (bytesToSextets_lt bytes h),
    b64PadChars_decode, List.append_nil, sextets_roundtrip bytes h]

example : jsonParse ("\x7b\"a\":\x7b\"b\":\"x\"\x7d,\"c\":[1,true,null]\x7d").data
    = some (Json.obj [("a", Json.obj [("b", Json.str ("x"))]),
        ("c", Json.arr [Json.num ("1"), Json.bool true, Json.null])]) := by rfl

example : jsonParse ("not json").data = none := by rfl

example : (jGet (Json.obj [("a", Json.str ("x")), ("a", Json.str ("y"))]) ("a"))
    = some (Json.str ("y")) := by rfl

theorem buildRoutes_mem (services : List ServiceDefinition) (cfg : GatewayConfig) :
    ∀ (acc : String -> Option Route) (k : String) (route : Route),
      (services.foldl
        (fun routes svc => fun k =>
          if k = svc.method ++ " " ++ svc.path then some (mkRoute cfg svc) else routes k)
        acc) k = some route ->
      (∃ svc ∈ services, route = mkRoute cfg svc) ∨ acc k = some route := by
  induction services with
  | nil => intro acc k route h; right; exact h
  | cons svc rest ih =>
      intro acc k route h
      simp only [List.foldl_cons] at h
      rcases ih _ k route h with hmem | hacc
      · obtain ⟨s2, hs2, hr⟩ := hmem
        exact Or.inl ⟨s2, by simp [hs2], hr⟩
      · by_cases hk : k = svc.method ++ " " ++ svc.path
        · simp only [hk, if_pos rfl] at hacc
          exact Or.inl ⟨svc, by simp, (Option.some.injEq _ _ ▸ hacc).symm⟩
        · simp only [if_neg hk] at hacc
          exact Or.inr hacc

theorem buildAccepts_ne_nil (cfg : GatewayConfig) (svc : ServiceDefinition)
    (h : cfg.payToEvm ≠ none ∨ cfg.payToSolana ≠ none) :
    buildAccepts cfg svc ≠ [] := by
  unfold buildAccepts
  cases hevm : cfg.payToEvm with
  | some p => simp
  | none =>
      cases hsol : cfg.payToSolana with
      | some p => simp
      | none => rcases h with h | h <;> simp_all

/-- C5: for every request to a paid route carrying no payment header,
given at least one configured recipient, the middleware responds 402 with
body the empty JSON object and a PAYMENT-REQUIRED header that
base64-decodes to the JSON serialization of the paymentRequired object
\x7bx402Version: 2, error: "Payment required", resource: \x7burl,
description, mimeType\x7d, accepts: [...]\x7d with at least one accept
entry, every accept entry omitting the price field. -/
theorem claim_c5_402_shape (services : List ServiceDefinition) (cfg : GatewayConfig)
    (req : HttpRequest) (route : Route)
    (hnp : jsTruthy req.paymentSignature = false)
    (hnx : jsTruthy req.xPayment = false)
    (hroute : buildRoutesConfig services cfg (req.method ++ " " ++ pathBeforeQuery req.path)
        = some route)
    (hrecip : cfg.payToEvm ≠ none ∨ cfg.payToSolana ≠ none)
    (hascii : ∀ b ∈ charCodes (renderPaymentRequired (payment402Payload req route)), b < 256) :
    enriched402Middleware (buildRoutesConfig services cfg) req = some (mk402Response req route)
    ∧ (mk402Response req route).status = 402
    ∧ (mk402Response req route).body = "\x7b\x7d"
    ∧ b64DecodeChars (mk402Response req route).paymentRequiredHeader.data
        = charCodes (renderPaymentRequired (payment402Payload req route))
    ∧ (payment402Payload req route).x402Version = 2
    ∧ (payment402Payload req route).error = "Payment required"
    ∧ (payment402Payload req route).accepts ≠ []
    ∧ (∀ a ∈ (payment402Payload req route).accepts, a.price = none) := by
  refine ⟨?_, rfl, rfl, ?_, rfl, rfl, ?_, ?_⟩
  · unfold enriched402Middleware
    simp [hnp, hnx, hroute]
  · have hh : (mk402Response req route).paymentRequiredHeader.data
        = b64EncodeBytes (charCodes (renderPaymentRequired (payment402Payload req route))) := rfl
    rw [hh, b64_decode_encode _ hascii]
  · rcases buildRoutes_mem services cfg (fun _ => none) _ route hroute with ⟨svc, hsvc, hr⟩ | habs
    · have hne : route.accepts ≠ [] := by
        rw [hr]
        exact buildAccepts_ne_nil cfg svc hrecip
      simp only [payment402Payload, ne_eq, List.map_eq_nil_iff]
      exact hne
    · cases habs
  · intro a ha
    simp only [payment402Payload, List.mem_map] at ha
    obtain ⟨b, hb, hba⟩ := ha
    rw [← hba]
    rfl

set_option maxRecDepth 8192 in
/-- Witness for C5 at the concrete sample route: the middleware responds,
the header round-trips, and every advertised accept entry omits price. -/
theorem claim_c5_402_shape_witness :
    enriched402Middleware (buildRoutesConfig [sampleService] sampleConfig) sampleRequest
        = some (mk402Response sampleRequest (mkRoute sampleConfig sampleService))
    ∧ b64DecodeChars
        (mk402Response sampleRequest (mkRoute sampleConfig sampleService)).paymentRequiredHeader.data
        = charCodes (renderPaymentRequired
            (payment402Payload sampleRequest (mkRoute sampleConfig sampleService)))
    ∧ (∀ a ∈ (payment402Payload sampleRequest (mkRoute sampleConfig sampleService)).accepts,
        a.price = none) := by
  have h := claim_c5_402_shape [sampleService] sampleConfig sampleRequest
    (mkRoute sampleConfig sampleService) (by decide) (by decide) (by decide)
    (Or.inl (by decide)) (by decide)
  exact ⟨h.1, h.2.2.2.1, h.2.2.2.2.2.2.2⟩

/-- C8: the fast-rail middleware passes a request to the next middleware
without writing a response, without altering the ledger, and without
annotating the request, whenever the request has no (truthy) payment
header, or the header fails to base64-decode and JSON-parse, or the
decoded network is not the fast rail, or no paid route with a fast-rail
accept entry matches. -/
theorem claim_c8_passthrough (routes : String → Option Route) (dbOk : Bool)
    (db : LedgerDb) (fetch : Option Receipt) (req : HttpRequest) :
    (jsOrHeader req.paymentSignature req.xPayment = none →
      megaethPaymentMiddleware routes dbOk db fetch req = (MwResult.next, db))
    ∧ (∀ h, jsOrHeader req.paymentSignature req.xPayment = some h →
        decodePaymentHeader h = none →
        megaethPaymentMiddleware routes dbOk db fetch req = (MwResult.next, db))
    ∧ (∀ h j, jsOrHeader req.paymentSignature req.xPayment = some h →
        decodePaymentHeader h = some j →
        detectNetwork j ≠ "megaeth" →
        megaethPaymentMiddleware routes dbOk db fetch req = (MwResult.next, db))
    ∧ (∀ h j, jsOrHeader req.paymentSignature req.xPayment = some h →
        decodePaymentHeader h = some j →
        detectNetwork j = "megaeth" →
        getRouteRequirements routes req.method req.path = none →
        megaethPaymentMiddleware routes dbOk db fetch req = (MwResult.next, db)) := by
  refine ⟨?_, ?_, ?_, ?_⟩
  · intro hh
    unfold megaethPaymentMiddleware
    rw [hh]
  · intro h hh hd
    unfold megaethPaymentMiddleware
    rw [hh]
    simp [hd]
  · intro h j hh hd hn
    unfold megaethPaymentMiddleware
    rw [hh]
    simp [hd, hn]
  · intro h j hh hd hn hr
    unfold megaethPaymentMiddleware
    rw [hh]
    simp [hd, hn, hr]

set_option maxRecDepth 8192 in
/-- Witness for C8 at concrete requests: no header, an undecodable
header, a Base-rail header, and a fast-rail header with no matching paid
route all pass through with the ledger untouched. -/
theorem claim_c8_passthrough_witness :
    megaethPaymentMiddleware (fun _ => none) true ⟨[]⟩ none sampleRequest
        = (MwResult.next, ⟨[]⟩)
    ∧ megaethPaymentMiddleware (fun _ => none) true ⟨[]⟩ none
        { sampleRequest with paymentSignature := some ("!!!") } = (MwResult.next, ⟨[]⟩)
    ∧ megaethPaymentMiddleware (fun _ => none) true ⟨[]⟩ none
        { sampleRequest with paymentSignature := some sampleBaseHeader }
        = (MwResult.next, ⟨[]⟩)
    ∧ megaethPaymentMiddleware (fun _ => none) true ⟨[]⟩ none
        { sampleRequest with paymentSignature := some sampleMegaHeader }
        = (MwResult.next, ⟨[]⟩) := by
  refine ⟨?_, ?_, ?_, ?_⟩
  · exact (claim_c8_passthrough (fun _ => none) true ⟨[]⟩ none sampleRequest).1 (by rfl)
  · exact (claim_c8_passthrough (fun _ => none) true ⟨[]⟩ none
      { sampleRequest with paymentSignature := some ("!!!") }).2.1 ("!!!") (by rfl) (by rfl)
  · exact (claim_c8_passthrough (fun _ => none) true ⟨[]⟩ none
      { sampleRequest with paymentSignature := some sampleBaseHeader }).2.2.1
      sampleBaseHeader sampleBaseDecoded (by rfl) (by rfl) (by decide)
  · exact (claim_c8_passthrough (fun _ => none) true ⟨[]⟩ none
      { sampleRequest with paymentSignature := some sampleMegaHeader }).2.2.2
      sampleMegaHeader sampleMegaDecoded (by rfl) (by rfl) (by rfl) (by rfl)

/-- C6 (amended): the verifier normalizes the transaction hash to
lowercase and validates the recipient (0x + 40 hex) before any RPC call,
rejecting a malformed recipient as malformed proof; the middleware
rejects a missing or non-0x-prefixed txHash before verification; but
there is no 0x + 64-hex validation of the transaction hash — any fresh
hash, well-formed or not, proceeds to the RPC receipt fetch and is
rejected only by the lookup. -/
theorem claim_c6_format_checks :
    (∀ (u : String) (dbOk : Bool) (db : LedgerDb) (proof : PaymentProof) (A : Nat)
        (r : String) (fetch : Option Receipt),
        isEthAddressFormat r = false →
        verifyMegaETHPayment u dbOk db proof A r fetch
          = ⟨db, invalidResult ("Invalid recipient address format"), false⟩)
    ∧ (∀ (u : String) (dbOk : Bool) (db : LedgerDb) (proof : PaymentProof) (A : Nat)
        (r : String) (fetch : Option Receipt),
        (verifyMegaETHPayment u dbOk db proof A r fetch).result.valid = true →
        (verifyMegaETHPayment u dbOk db proof A r fetch).result.txHash
          = some (lowerStr proof.txHash))
    ∧ (∀ (u : String) (dbOk : Bool) (db : LedgerDb) (proof : PaymentProof) (A : Nat)
        (r : String) (fetch : Option Receipt),
        isEthAddressFormat r = true →
        isTxHashUsed db (lowerStr proof.txHash) = false →
        (verifyMegaETHPayment u dbOk db proof A r fetch).rpcCalled = true)
    ∧ (∀ (routes : String → Option Route) (dbOk : Bool) (db : LedgerDb)
        (fetch : Option Receipt) (req : HttpRequest) (h : String) (j : Json)
        (routeReq : RouteRequirement) (amt : Int),
        jsOrHeader req.paymentSignature req.xPayment = some h →
        decodePaymentHeader h = some j →
        detectNetwork j = "megaeth" →
        getRouteRequirements routes req.method req.path = some routeReq →
        priceStringToTokenAmount routeReq.amount 18 = some amt →
        (∀ s, txHashOf j = some s → startsWith0x s = false) →
        megaethPaymentMiddleware routes dbOk db fetch req
          = (MwResult.reject ("MegaETH payments require a txHash in the payload") none, db)) := by
  refine ⟨?_, ?_, ?_, ?_⟩
  · intro u dbOk db proof A r fetch hr
    unfold verifyMegaETHPayment
    simp [hr]
  · intro u dbOk db proof A r fetch hv
    unfold verifyMegaETHPayment at hv ⊢
    by_cases h1 : isEthAddressFormat r = true
    · by_cases h2 : isTxHashUsed db (lowerStr proof.txHash) = true
      · simp [h1, h2, invalidResult] at hv
      · cases fetch with
        | none => simp [h1, h2, invalidResult] at hv
        | some receipt =>
            by_cases h3 : receipt.status = "success"
            · by_cases h4 : (verifyTransferLogs u receipt.logs A r).valid = true
              · by_cases h5 : (recordTxHash dbOk db (lowerStr proof.txHash)).2 = true
                · simp [h1, h2, h3, h4, h5, validResult]
                · simp [h1, h2, h3, h4, h5, invalidResult] at hv
              · simp only [Bool.not_eq_true] at h4
                simp [h1, h2, h3, h4, invalidResult] at hv
            · simp [h1, h2, h3, invalidResult] at hv
    · simp [h1, invalidResult] at hv
  · intro u dbOk db proof A r fetch h1 h2
    unfold verifyMegaETHPayment
    cases fetch with
    | none => simp [h1, h2]
    | some receipt =>
        by_cases h3 : receipt.status = "success"
        · by_cases h4 : (verifyTransferLogs u receipt.logs A r).valid = true
          · by_cases h5 : (recordTxHash dbOk db (lowerStr proof.txHash)).2 = true
            · simp [h1, h2, h3, h4, h5]
            · simp [h1, h2, h3, h4, h5]
          · simp only [Bool.not_eq_true] at h4
            simp [h1, h2, h3, h4]
        · simp [h1, h2, h3]
  · intro routes dbOk db fetch req h j routeReq amt hh hd hn hr hp hts
    unfold megaethPaymentMiddleware
    rw [hh]
    cases htx : txHashOf j with
    | none => simp [hd, hn, hr, hp, htx]
    | some s =>
        have hsw := hts s htx
        simp [hd, hn, hr, hp, htx, hsw]

/-- Witness for C6 at concrete inputs: a malformed recipient is rejected
as malformed proof before any RPC call, and the 0x-prefixed but
non-64-hex hash 0xABC still reaches the RPC fetch. -/
theorem claim_c6_format_checks_witness :
    verifyMegaETHPayment megaethUsdmAddress true ⟨[]⟩ ⟨sampleTxHash⟩ 5 badRecipient none
        = ⟨⟨[]⟩, invalidResult ("Invalid recipient address format"), false⟩
    ∧ (verifyMegaETHPayment megaethUsdmAddress true ⟨[]⟩ ⟨shortTxHash⟩ 5 sampleRecipient
        none).rpcCalled = true := by
  constructor
  · exact claim_c6_format_checks.1 megaethUsdmAddress true ⟨[]⟩ ⟨sampleTxHash⟩ 5 badRecipient
      none (by decide)
  · exact claim_c6_format_checks.2.2.1 megaethUsdmAddress true ⟨[]⟩ ⟨shortTxHash⟩ 5
      sampleRecipient none (by decide) (by decide)

theorem acquire_isSome (s : KeyPoolState) (q p : String) :
    ((acquire s q).2 p).isSome = (s p).isSome := by
  unfold acquire
  cases hs : s q with
  | none => rfl
  | some pool =>
      by_cases he : pool.keys.isEmpty = true
      · simp [he]
      · simp only [he, Bool.false_eq_true, if_false]
        by_cases hp : p = q
        · subst hp
          simp [hs]
        · simp [hp]

theorem register_isSome_iff (s : KeyPoolState) (q : String) (ks : List String) (p : String) :
    ((register s q ks) p).isSome = true
      ↔ ((s p).isSome = true ∨ (q = p ∧ ks.filter (fun k => k ≠ "") ≠ [])) := by
  unfold register
  by_cases hf : (ks.filter (fun k => k ≠ "")).isEmpty = true
  · have hnil : ks.filter (fun k => k ≠ "") = [] := List.isEmpty_iff.mp hf
    rw [if_pos hf]
    constructor
    · exact fun h => Or.inl h
    · rintro (h | ⟨hqp, hne⟩)
      · exact h
      · exact absurd hnil hne
  · have hne : ks.filter (fun k => k ≠ "") ≠ [] := fun h => hf (List.isEmpty_iff.mpr h)
    rw [if_neg hf]
    by_cases hp : p = q
    · subst hp
      rw [if_pos rfl]
      constructor
      · intro _
        exact Or.inr ⟨rfl, hne⟩
      · intro _
        rfl
    · rw [if_neg hp]
      constructor
      · exact fun h => Or.inl h
      · rintro (h | ⟨hqp, _⟩)
        · exact h
        · exact absurd hqp.symm hp

theorem runPoolOps_isSome (ops : List PoolOp) :
    ∀ (s : KeyPoolState) (p : String),
      ((runPoolOps s ops) p).isSome = true
        ↔ ((s p).isSome = true ∨ ∃ op ∈ ops, successfulReg p op) := by
  induction ops with
  | nil => intro s p; simp [runPoolOps]
  | cons op rest ih =>
      intro s p
      cases op with
      | register q ks =>
          simp only [runPoolOps]
          rw [ih]
          rw [register_isSome_iff]
          simp only [List.mem_cons, successfulReg]
          constructor
          · rintro ((hs | hreg) | hex)
            · exact Or.inl hs
            · exact Or.inr ⟨PoolOp.register q ks, Or.inl rfl, hreg⟩
            · obtain ⟨op2, hop2, hsr⟩ := hex
              exact Or.inr ⟨op2, Or.inr hop2, hsr⟩
          · rintro (hs | ⟨op2, hop2 | hop2, hsr⟩)
            · exact Or.inl (Or.inl hs)
            · subst hop2
              exact Or.inl (Or.inr hsr)
            · exact Or.inr ⟨op2, hop2, hsr⟩
      | acquire q =>
          simp only [runPoolOps]
          rw [ih, acquire_isSome]
          simp only [List.mem_cons, successfulReg]
          constructor
          · rintro (hs | ⟨op2, hop2, hsr⟩)
            · exact Or.inl hs
            · exact Or.inr ⟨op2, Or.inr hop2, hsr⟩
          · rintro (hs | ⟨op2, hop2 | hop2, hsr⟩)
            · exact Or.inl hs
            · subst hop2
              cases hsr
            · exact Or.inr ⟨op2, hop2, hsr⟩

theorem runPoolOps_pool_keys (ops : List PoolOp) :
    ∀ (s : KeyPoolState),
      (∀ q pool, s q = some pool → pool.keys ≠ []) →
      ∀ q pool, runPoolOps s ops q = some pool → pool.keys ≠ [] := by
  induction ops with
  | nil => intro s hs; exact hs
  | cons op rest ih =>
      intro s hs
      cases op with
      | register q2 ks =>
          apply ih
          intro q pool hq
          unfold register at hq
          by_cases hf : (ks.filter (fun k => k ≠ "")).isEmpty = true
          · rw [if_pos hf] at hq
            exact hs q pool hq
          · have hne : ks.filter (fun k => k ≠ "") ≠ [] := fun h => hf (List.isEmpty_iff.mpr h)
            rw [if_neg hf] at hq
            by_cases hpq : q = q2
            · subst hpq
              rw [if_pos rfl] at hq
              rw [Option.some.injEq] at hq
              rw [← hq]
              exact hne
            · rw [if_neg hpq] at hq
              exact hs q pool hq
      | acquire q2 =>
          apply ih
          intro q pool hq
          unfold acquire at hq
          cases hsq : s q2 with
          | none =>
              rw [hsq] at hq
              exact hs q pool hq
          | some pool2 =>
              rw [hsq] at hq
              by_cases he : pool2.keys.isEmpty = true
              · simp only [he, if_true] at hq
                exact hs q pool hq
              · simp only [he, Bool.false_eq_true, if_false] at hq
                by_cases hpq : q = q2
                · subst hpq
                  rw [if_pos rfl] at hq
                  rw [Option.some.injEq] at hq
                  rw [← hq]
                  exact hs _ pool2 hsq
                · rw [if_neg hpq] at hq
                  exact hs q pool hq

theorem acquireRun_segment (p : String) (keys : List String) :
    ∀ (m j acq : Nat) (s : KeyPoolState),
      s p = some ⟨keys, j, acq⟩ → j < keys.length → j + m ≤ keys.length →
      (acquireRun p s m).1 = ((keys.drop j).take m).map some
      ∧ (acquireRun p s m).2 p = some ⟨keys, (j + m) % keys.length, acq + m⟩ := by
  intro m
  induction m with
  | zero =>
      intro j acq s hs hj hm
      refine ⟨rfl, ?_⟩
      simp only [acquireRun, Nat.add_zero]
      rw [hs, Nat.mod_eq_of_lt hj]
  | succ m ih =>
      intro j acq s hs hj hm
      have hne : keys ≠ [] := by
        intro h
        rw [h] at hj
        simp at hj
      have hke : keys.isEmpty = false := by
        rw [Bool.eq_false_iff]
        intro hx
        exact hne (List.isEmpty_iff.mp hx)
      have hstep : acquire s p
          = (some (keys.getD j ("")),
              fun q => if q = p then
                some ⟨keys, (j + 1) % keys.length, acq + 1⟩ else s q) := by
        unfold acquire
        rw [hs]
        simp [hke]
      have hhead : (acquire s p).1 = some (keys.getD j ("")) := by rw [hstep]
      have hs2 : (acquire s p).2 p = some ⟨keys, (j + 1) % keys.length, acq + 1⟩ := by
        rw [hstep]
        simp
      have hdropj : keys.drop j = keys.getD j ("") :: keys.drop (j + 1) := by
        rw [List.getD_eq_getElem keys ("") hj]
        exact List.drop_eq_getElem_cons hj
      by_cases hlast : j + 1 < keys.length
      · have hmod : (j + 1) % keys.length = j + 1 := Nat.mod_eq_of_lt hlast
        rw [hmod] at hs2
        obtain ⟨ho, hst⟩ := ih (j + 1) (acq + 1) (acquire s p).2 hs2 hlast (by omega)
        refine ⟨?_, ?_⟩
        · simp only [acquireRun]
          rw [hhead, ho, hdropj, List.take_succ_cons, List.map_cons]
        · simp only [acquireRun]
          rw [hst]
          have e1 : j + 1 + m = j + (m + 1) := by omega
          have e2 : acq + 1 + m = acq + (m + 1) := by omega
          rw [e1, e2]
      · have hj1 : j + 1 = keys.length := by omega
        have hm0 : m = 0 := by omega
        subst hm0
        have hdcut : keys.drop (j + 1) = [] := by
          apply List.drop_eq_nil_of_le
          omega
        refine ⟨?_, ?_⟩
        · simp only [acquireRun]
          rw [hhead, hdropj, hdcut]
          simp [acquireRun]
        · simp only [acquireRun]
          rw [hs2]

theorem acquireRun_append (p : String) :
    ∀ (m1 m2 : Nat) (s : KeyPoolState),
      (acquireRun p s (m1 + m2)).1
        = (acquireRun p s m1).1 ++ (acquireRun p (acquireRun p s m1).2 m2).1
      ∧ (acquireRun p s (m1 + m2)).2 = (acquireRun p (acquireRun p s m1).2 m2).2 := by
  intro m1
  induction m1 with
  | zero =>
      intro m2 s
      rw [Nat.zero_add]
      exact ⟨rfl, rfl⟩
  | succ m1 ih =>
      intro m2 s
      rw [Nat.succ_add]
      obtain ⟨ho, hst⟩ := ih m2 (acquire s p).2
      constructor
      · simp only [acquireRun, ho]
        rfl
      · simp only [acquireRun, hst]

theorem acquireRun_full_cycle (p : String) (keys : List String) (i acq : Nat)
    (s : KeyPoolState) (hs : s p = some ⟨keys, i, acq⟩) (hi : i < keys.length) :
    (acquireRun p s keys.length).1 = (keys.rotate i).map some := by
  have hsplit : keys.length = (keys.length - i) + i := by omega
  obtain ⟨ho1, hst1⟩ :=
    acquireRun_segment p keys (keys.length - i) i acq s hs hi (by omega)
  have hidx : (i + (keys.length - i)) % keys.length = 0 := by
    have hsum : i + (keys.length - i) = keys.length := by omega
    rw [hsum, Nat.mod_self]
  rw [hidx] at hst1
  obtain ⟨ho2, hst2⟩ :=
    acquireRun_segment p keys i 0 (acq + (keys.length - i)) (acquireRun p s (keys.length - i)).2
      hst1 (by omega) (by omega)
  obtain ⟨happ, _⟩ := acquireRun_append p (keys.length - i) i s
  rw [hsplit, happ, ho1, ho2]
  rw [List.take_of_length_le (by simp)]
  simp only [List.drop_zero]
  rw [List.rotate_eq_drop_append_take (by omega)]
  simp

/-- C9: the credential pool.  register drops empty-string secrets and is
a no-op when none remain; acquire returns the secret at the current index
and advances modulo the secret count; any n consecutive acquires starting
from a reachable index return exactly one full rotation of the n
registered secrets (a permutation: every secret exactly once); and
acquire returns null iff no registration for the provider ever installed
a non-empty secret list. -/
theorem claim_c9_keypool :
    (∀ (s : KeyPoolState) (p : String) (ks : List String),
        (ks.filter (fun k => k ≠ "") = [] → register s p ks = s)
        ∧ (ks.filter (fun k => k ≠ "") ≠ [] →
            register s p ks p = some ⟨ks.filter (fun k => k ≠ ""), 0, 0⟩
            ∧ ∀ q, q ≠ p → register s p ks q = s q))
    ∧ (∀ (s : KeyPoolState) (p : String) (pool : ProviderPool),
        s p = some pool → pool.keys ≠ [] →
        (acquire s p).1 = some (pool.keys.getD pool.index (""))
        ∧ (acquire s p).2 p
            = some ⟨pool.keys, (pool.index + 1) % pool.keys.length, pool.totalAcquires + 1⟩)
    ∧ (∀ (s : KeyPoolState) (p : String) (pool : ProviderPool),
        s p = some pool → pool.index < pool.keys.length →
        (acquireRun p s pool.keys.length).1 = (pool.keys.rotate pool.index).map some
        ∧ (pool.keys.rotate pool.index).Perm pool.keys)
    ∧ (∀ (ops : List PoolOp) (p : String),
        (acquire (runPoolOps emptyKeyPool ops) p).1 = none
          ↔ ¬ ∃ op ∈ ops, successfulReg p op) := by
  refine ⟨?_, ?_, ?_, ?_⟩
  · intro s p ks
    constructor
    · intro hnil
      unfold register
      rw [if_pos (List.isEmpty_iff.mpr hnil)]
    · intro hne
      have hfn : ¬ ((ks.filter (fun k => k ≠ "")).isEmpty = true) := by
        intro hx
        exact hne (List.isEmpty_iff.mp hx)
      constructor
      · unfold register
        rw [if_neg hfn]
        simp
      · intro q hq
        unfold register
        rw [if_neg hfn]
        simp [hq]
  · intro s p pool hs hk
    have hke : pool.keys.isEmpty = false := by
      rw [Bool.eq_false_iff]
      intro hx
      exact hk (List.isEmpty_iff.mp hx)
    unfold acquire
    rw [hs]
    simp [hke]
  · intro s p pool hs hi
    obtain ⟨keys, i, acq⟩ := pool
    exact ⟨acquireRun_full_cycle p keys i acq s hs hi, List.rotate_perm keys i⟩
  · intro ops p
    have hinv := runPoolOps_pool_keys ops emptyKeyPool
      (by intro q pool h; cases h) p
    have hsome := runPoolOps_isSome ops emptyKeyPool p
    unfold acquire
    cases hq : runPoolOps emptyKeyPool ops p with
    | none =>
        simp only []
        constructor
        · intro _ hex
          have hx : (runPoolOps emptyKeyPool ops p).isSome = true :=
            hsome.mpr (Or.inr hex)
          rw [hq] at hx
          cases hx
        · intro _
          trivial
    | some pool =>
        have hk : pool.keys ≠ [] := hinv pool hq
        have hke : pool.keys.isEmpty = false := by
          rw [Bool.eq_false_iff]
          intro hx
          exact hk (List.isEmpty_iff.mp hx)
        have hex : ∃ op ∈ ops, successfulReg p op := by
          have hx := hsome.mp (by rw [hq]; rfl)
          rcases hx with habs | hx
          · simp [emptyKeyPool] at habs
          · exact hx
        simp only [hke, Bool.false_eq_true, if_false]
        constructor
        · intro habs
          cases habs
        · intro hno
          exact absurd hex hno

/-- Witness for C9 at a concrete pool: the empty secret is dropped, the
first acquire returns the first secret and advances, two consecutive
acquires return both secrets exactly once, and a provider whose only
registration carried only empty secrets acquires null. -/
theorem claim_c9_keypool_witness :
    (register emptyKeyPool ("coingecko") ["k1", "", "k2"]) ("coingecko")
        = some ⟨["k1", "k2"], 0, 0⟩
    ∧ (acquire samplePool ("coingecko")).1 = some ((["k1", "k2"] : List String).getD 0 (""))
    ∧ (acquireRun ("coingecko") samplePool 2).1
        = ((["k1", "k2"] : List String).rotate 0).map some
    ∧ (acquire (runPoolOps emptyKeyPool [PoolOp.register ("stripe") [""]]) ("stripe")).1
        = none := by
  refine ⟨?_, ?_, ?_, ?_⟩
  · exact ((claim_c9_keypool.1 emptyKeyPool ("coingecko") ["k1", "", "k2"]).2 (by decide)).1
  · exact (claim_c9_keypool.2.1 samplePool ("coingecko") ⟨["k1", "k2"], 0, 0⟩
      (by decide) (by decide)).1
  · exact (claim_c9_keypool.2.2.1 samplePool ("coingecko") ⟨["k1", "k2"], 0, 0⟩
      (by decide) (by decide)).1
  · refine (claim_c9_keypool.2.2.2 [PoolOp.register ("stripe") [""]] ("stripe")).mpr ?_
    rintro ⟨op, hop, hsr⟩
    rcases List.mem_singleton.mp hop with rfl
    exact hsr.2 (by decide)

end X402

